import Mathlib

/-!
# WishperNet client (`static/app.js`): a shallow embedding

The browser client keeps one AES-GCM key per room, derived with HKDF from the
room token, and exchanges base64 envelopes `nonce ‖ ciphertext ‖ tag` over a
socket.  This development embeds `EncryptionService` and the parts of `ChatApp`
that drive it, together with the platform functions the code calls
(`TextEncoder`, `TextDecoder`, `btoa`, `atob`, `String.fromCharCode`,
`Uint8Array.from`, `String.prototype.trim`, `RegExp.prototype.test`).

JavaScript strings are sequences of 16-bit code units, byte arrays are sequences
of octets.  The Web Crypto primitives (HKDF-SHA-256 and AES-GCM) are a parameter
of the embedding, and so is the number of arguments the engine accepts in one
call; a value `null` and a caught exception are both `none`.

The methods of `EncryptionService` are state-passing functions on the key map.
The pages are state machines.  An `async` method is split at its `await`: the
part before it runs as one step with the handler that calls it and leaves a
suspended call in the state, the part after it is a step of its own, so other
handlers can run in between.  The state also records what the code does to its
surroundings: requests, emitted socket events, alerts, rendered message
elements, the calls of `encrypt` and `decrypt` with their arguments, and the
exceptions that escape a handler.
-/

namespace WishperNet

/-! ## Strings and byte arrays -/

/-- An octet: the element type of a `Uint8Array`. -/
abbrev Byte := Fin 256

/-- The contents of a `Uint8Array` or `ArrayBuffer`. -/
abbrev Bytes := List Byte

/-- A UTF-16 code unit. -/
abbrev CodeUnit := Fin 65536

/-- A JavaScript string value: a finite sequence of UTF-16 code units. -/
abbrev JSString := List CodeUnit

/-- The conversion `ToUint8` that a `Uint8Array` applies to a stored number. -/
def toUint8 (n : Nat) : Byte := ⟨n % 256, Nat.mod_lt _ (by decide)⟩

/-- The conversion `ToUint16` that `String.fromCharCode` applies to its arguments. -/
def toUint16 (n : Nat) : CodeUnit := ⟨n % 65536, Nat.mod_lt _ (by decide)⟩

/-- Leading surrogate, `0xD800 .. 0xDBFF`. -/
def isHighSurrogate (u : CodeUnit) : Bool := 0xD800 ≤ u.val && u.val ≤ 0xDBFF

/-- Trailing surrogate, `0xDC00 .. 0xDFFF`. -/
def isLowSurrogate (u : CodeUnit) : Bool := 0xDC00 ≤ u.val && u.val ≤ 0xDFFF

/-- The code units of one code point (the string a decoder emits for it). -/
def codePointToUnits (cp : Nat) : JSString :=
  if cp < 0x10000 then [toUint16 cp]
  else [toUint16 (0xD800 + (cp - 0x10000) / 1024), toUint16 (0xDC00 + (cp - 0x10000) % 1024)]

/-- A JavaScript string literal, written as a Lean string. -/
def js (s : String) : JSString := s.toList.flatMap (fun c => codePointToUnits c.toNat)

/-- Conversion of a string to a sequence of scalar values (Web IDL `USVString`): a surrogate
pair becomes its code point, an unpaired surrogate becomes U+FFFD. -/
def toScalarValues : JSString → List Nat
  | [] => []
  | [u] => if isHighSurrogate u || isLowSurrogate u then [0xFFFD] else [u.val]
  | u :: v :: rest =>
    if isHighSurrogate u then
      if isLowSurrogate v then
        (0x10000 + (u.val - 0xD800) * 1024 + (v.val - 0xDC00)) :: toScalarValues rest
      else 0xFFFD :: toScalarValues (v :: rest)
    else if isLowSurrogate u then 0xFFFD :: toScalarValues (v :: rest)
    else u.val :: toScalarValues (v :: rest)

/-- The UTF-8 encoder applied to one scalar value. -/
def utf8EncodeScalar (cp : Nat) : Bytes :=
  if cp ≤ 0x7F then [toUint8 cp]
  else if cp ≤ 0x7FF then [toUint8 (cp / 64 + 0xC0), toUint8 (0x80 + cp % 64)]
  else if cp ≤ 0xFFFF then
    [toUint8 (cp / 4096 + 0xE0), toUint8 (0x80 + cp / 64 % 64), toUint8 (0x80 + cp % 64)]
  else
    [toUint8 (cp / 262144 + 0xF0), toUint8 (0x80 + cp / 4096 % 64),
     toUint8 (0x80 + cp / 64 % 64), toUint8 (0x80 + cp % 64)]

namespace TextEncoder

/-- The call `new TextEncoder().encode(s)`: the UTF-8 bytes of the scalar values of `s`. -/
def encode (s : JSString) : Bytes := (toScalarValues s).flatMap utf8EncodeScalar

end TextEncoder

/-- State of the UTF-8 decoder. -/
structure Utf8State where
  codePoint : Nat
  bytesSeen : Nat
  bytesNeeded : Nat
  lower : Nat
  upper : Nat
deriving DecidableEq, Repr

/-- The decoder state between two code points. -/
def Utf8State.init : Utf8State :=
  { codePoint := 0, bytesSeen := 0, bytesNeeded := 0, lower := 0x80, upper := 0xBF }

/-- The decoder reading a byte while no code point is in progress. -/
def utf8Lead (b : Nat) : List Nat × Utf8State :=
  if b ≤ 0x7F then ([b], Utf8State.init)
  else if 0xC2 ≤ b ∧ b ≤ 0xDF then
    ([], { codePoint := b % 32, bytesSeen := 0, bytesNeeded := 1, lower := 0x80, upper := 0xBF })
  else if 0xE0 ≤ b ∧ b ≤ 0xEF then
    ([], { codePoint := b % 16, bytesSeen := 0, bytesNeeded := 2,
           lower := if b = 0xE0 then 0xA0 else 0x80,
           upper := if b = 0xED then 0x9F else 0xBF })
  else if 0xF0 ≤ b ∧ b ≤ 0xF4 then
    ([], { codePoint := b % 8, bytesSeen := 0, bytesNeeded := 3,
           lower := if b = 0xF0 then 0x90 else 0x80,
           upper := if b = 0xF4 then 0x8F else 0xBF })
  else ([0xFFFD], Utf8State.init)

/-- One step of the decoder (replacement error mode): the code points emitted for a byte
and the next state.  A byte that cannot continue the current sequence ends it with U+FFFD
and is read again as a leading byte. -/
def utf8Step (st : Utf8State) (b : Nat) : List Nat × Utf8State :=
  if st.bytesNeeded = 0 then utf8Lead b
  else if b < st.lower ∨ st.upper < b then
    (0xFFFD :: (utf8Lead b).1, (utf8Lead b).2)
  else if st.bytesSeen + 1 = st.bytesNeeded then
    ([st.codePoint * 64 + b % 64], Utf8State.init)
  else
    ([], { codePoint := st.codePoint * 64 + b % 64, bytesSeen := st.bytesSeen + 1,
           bytesNeeded := st.bytesNeeded, lower := 0x80, upper := 0xBF })

/-- The decoder run over a byte sequence; an unfinished sequence at the end gives U+FFFD. -/
def utf8DecodeFrom (st : Utf8State) : Bytes → List Nat
  | [] => if st.bytesNeeded = 0 then [] else [0xFFFD]
  | b :: rest => (utf8Step st b.val).1 ++ utf8DecodeFrom (utf8Step st b.val).2 rest

/-- Removal of a leading U+FEFF, as a decoder constructed without `ignoreBOM` does. -/
def stripBOM (cps : List Nat) : List Nat :=
  match cps with
  | [] => []
  | cp :: rest => if cp = 0xFEFF then rest else cp :: rest

namespace TextDecoder

/-- The call `new TextDecoder().decode(bytes)`: UTF-8, not fatal, `ignoreBOM` false. -/
def decode (bytes : Bytes) : JSString :=
  (stripBOM (utf8DecodeFrom Utf8State.init bytes)).flatMap codePointToUnits

end TextDecoder

/-! ## Base64 transport -/

/-- The base64 alphabet: the character of a 6-bit value. -/
def base64Char (n : Nat) : CodeUnit :=
  if n < 26 then toUint16 (65 + n)
  else if n < 52 then toUint16 (97 + (n - 26))
  else if n < 62 then toUint16 (48 + (n - 52))
  else if n = 62 then toUint16 43
  else toUint16 47

/-- The 6-bit value of a base64 character, if it is one. -/
def base64Value (u : CodeUnit) : Option Nat :=
  if 65 ≤ u.val ∧ u.val ≤ 90 then some (u.val - 65)
  else if 97 ≤ u.val ∧ u.val ≤ 122 then some (u.val - 97 + 26)
  else if 48 ≤ u.val ∧ u.val ≤ 57 then some (u.val - 48 + 52)
  else if u.val = 43 then some 62
  else if u.val = 47 then some 63
  else none

/-- The padding character `=`. -/
def padChar : CodeUnit := toUint16 61

/-- Base64 encoding with padding. -/
def base64Encode : Bytes → JSString
  | [] => []
  | [a] => [base64Char (a.val / 4), base64Char (a.val % 4 * 16), padChar, padChar]
  | [a, b] =>
    [base64Char (a.val / 4), base64Char (a.val % 4 * 16 + b.val / 16),
     base64Char (b.val % 16 * 4), padChar]
  | a :: b :: c :: rest =>
    base64Char (a.val / 4) :: base64Char (a.val % 4 * 16 + b.val / 16) ::
      base64Char (b.val % 16 * 4 + c.val / 64) :: base64Char (c.val % 64) :: base64Encode rest

/-- The call `btoa(s)`: throws (`none`) when a code unit exceeds `0xFF`. -/
def btoa (s : JSString) : Option JSString :=
  if s.all (fun u => decide (u.val ≤ 0xFF)) then
    some (base64Encode (s.map (fun u => toUint8 u.val)))
  else none

/-- ASCII whitespace: TAB, LF, FF, CR, SPACE. -/
def isAsciiWhitespace (u : CodeUnit) : Bool :=
  u.val == 9 || u.val == 10 || u.val == 12 || u.val == 13 || u.val == 32

/-- Removal of one or two trailing `=`. -/
def stripPadding (data : JSString) : JSString :=
  match data.reverse with
  | p :: q :: rest =>
    if p = padChar then (if q = padChar then rest.reverse else (q :: rest).reverse) else data
  | [p] => if p = padChar then [] else data
  | [] => data

/-- The bytes of a sequence of 6-bit values; a trailing group of two or three values gives
one or two bytes, the unused bits are dropped. -/
def base64DecodeValues : List Nat → Bytes
  | a :: b :: c :: d :: rest =>
    toUint8 (a * 4 + b / 16) :: toUint8 (b % 16 * 16 + c / 4) :: toUint8 (c % 4 * 64 + d) ::
      base64DecodeValues rest
  | [a, b, c] => [toUint8 (a * 4 + b / 16), toUint8 (b % 16 * 16 + c / 4)]
  | [a, b] => [toUint8 (a * 4 + b / 16)]
  | [_] => []
  | [] => []

/-- The 6-bit values of a string of base64 characters; any other character is a failure. -/
def base64Values : JSString → Option (List Nat)
  | [] => some []
  | u :: rest =>
    match base64Value u, base64Values rest with
    | some v, some vs => some (v :: vs)
    | _, _ => none

/-- Forgiving base64 decoding: whitespace is removed, padding is optional, any other
character or a length of 1 modulo 4 is a failure. -/
def forgivingBase64Decode (data : JSString) : Option Bytes :=
  let data := data.filter (fun u => !isAsciiWhitespace u)
  let data := if data.length % 4 = 0 then stripPadding data else data
  if data.length % 4 = 1 then none
  else (base64Values data).map base64DecodeValues

/-- The call `atob(data)`: throws (`none`) on failure, otherwise the binary string. -/
def atob (data : JSString) : Option JSString :=
  (forgivingBase64Decode data).map (fun bs => bs.map (fun b => toUint16 b.val))

/-- The string whose code units are the bytes of an array. -/
def binaryString (bytes : Bytes) : JSString := bytes.map (fun b => toUint16 b.val)

/-- The call `String.fromCharCode(...combined)`: every element of the array is an argument
of the call, and the engine throws a `RangeError` (`none`) when there are more arguments
than it accepts. -/
def fromCharCode (maxArguments : Nat) (combined : Bytes) : Option JSString :=
  if combined.length ≤ maxArguments then some (binaryString combined) else none

/-- The string iterator: the elements of a string taken code point by code point. -/
def stringIterator : JSString → List JSString
  | [] => []
  | [u] => [[u]]
  | u :: v :: rest =>
    if isHighSurrogate u && isLowSurrogate v then [u, v] :: stringIterator rest
    else [u] :: stringIterator (v :: rest)

/-- The call `Uint8Array.from(s, c => c.charCodeAt(0))`. -/
def uint8ArrayFromCharCodes (s : JSString) : Bytes :=
  (stringIterator s).map (fun c => match c with
    | u :: _ => toUint8 u.val
    | [] => toUint8 0)


/-- The test `s.isWellFormed()`: the string has no unpaired surrogate. -/
def isWellFormed : JSString → Bool
  | [] => true
  | [u] => !(isHighSurrogate u || isLowSurrogate u)
  | u :: v :: rest =>
    if isHighSurrogate u then isLowSurrogate v && isWellFormed rest
    else !isLowSurrogate u && isWellFormed (v :: rest)

/-- The string begins with U+FEFF. -/
def startsWithBOM (s : JSString) : Bool :=
  match s with
  | [] => false
  | u :: _ => u.val == 0xFEFF

/-- White space and line terminators of ECMAScript, the characters `trim` removes. -/
def isWhiteSpace (u : CodeUnit) : Bool :=
  u.val == 0x9 || u.val == 0xA || u.val == 0xB || u.val == 0xC || u.val == 0xD ||
  u.val == 0x20 || u.val == 0xA0 || u.val == 0x1680 ||
  (0x2000 ≤ u.val && u.val ≤ 0x200A) ||
  u.val == 0x2028 || u.val == 0x2029 || u.val == 0x202F || u.val == 0x205F ||
  u.val == 0x3000 || u.val == 0xFEFF

/-- The call `s.trim()`. -/
def trim (s : JSString) : JSString :=
  ((s.dropWhile isWhiteSpace).reverse.dropWhile isWhiteSpace).reverse

/-- Truthiness of a value that is a string or `null`: a non-empty string. -/
def truthy (v : Option JSString) : Bool :=
  match v with
  | none => false
  | some s => !s.isEmpty

/-- A value that is a string or `null`, passed where a string is expected. -/
def stringArg (v : Option JSString) : JSString :=
  match v with
  | none => js "null"
  | some s => s

/-- Decimal digits of a number, as `toString()` and template literals give for an integer
below `10^21`, which epoch milliseconds are. -/
def numberToString (n : Nat) : JSString := (Nat.toDigits 10 n).map (fun ch => toUint16 ch.toNat)

/-! ## Web Crypto

`crypto.subtle` is a parameter: HKDF-SHA-256 key derivation and AES-GCM.  A `CryptoKey` is
represented by its key bits.  The parameter also carries the one limit of the engine that
the service meets. -/

/-- The primitives of `crypto.subtle` used by the service, and the engine's limit on the
number of arguments of a call. -/
structure WebCrypto where
  /-- HKDF with SHA-256: key material, salt, info and key length in bits give the key. -/
  hkdf : Bytes → Bytes → Bytes → Nat → Bytes
  /-- AES-GCM encryption: key, iv, tag length in bits, data; `none` is a rejected promise. -/
  aesGcmEncrypt : Bytes → Bytes → Nat → Bytes → Option Bytes
  /-- AES-GCM decryption: key, iv, tag length in bits, data; `none` is a rejected promise. -/
  aesGcmDecrypt : Bytes → Bytes → Nat → Bytes → Option Bytes
  /-- The largest number of arguments a call may spread; it depends on the engine and on
  the stack that is left. -/
  maxArguments : Nat

namespace WebCrypto

/-- Encryption succeeds and decryption under the same key and nonce inverts it. -/
def Correct (c : WebCrypto) : Prop :=
  ∀ key iv tagLength data, ∃ ct,
    c.aesGcmEncrypt key iv tagLength data = some ct ∧
    c.aesGcmDecrypt key iv tagLength ct = some data

/-- The output of encryption is the ciphertext, as long as the data, followed by the tag. -/
def TagAppended (c : WebCrypto) : Prop :=
  ∀ key iv tagLength data ct,
    c.aesGcmEncrypt key iv tagLength data = some ct → ct.length = data.length + tagLength / 8

/-- A ciphertext made under one key is rejected under every other key.  No cipher with a
tag of 128 bits has this property for all keys; it describes the stand-in `sealedCrypto`
only and no statement about the code assumes it. -/
def RejectsOtherKeys (c : WebCrypto) : Prop :=
  ∀ key₁ key₂ iv tagLength data ct, key₁ ≠ key₂ →
    c.aesGcmEncrypt key₁ iv tagLength data = some ct →
    c.aesGcmDecrypt key₂ iv tagLength ct = none

end WebCrypto

/-! ## The class EncryptionService -/

/-- The map `roomKeys`: room token to derived key. -/
abbrev KeyMap := List (JSString × Bytes)

/-- The call `roomKeys.get(k)`; `none` when `roomKeys.has(k)` is false. -/
def KeyMap.get : KeyMap → JSString → Option Bytes
  | [], _ => none
  | (k, v) :: rest, key => if k = key then some v else KeyMap.get rest key

/-- The call `roomKeys.delete(k)`. -/
def KeyMap.delete (m : KeyMap) (key : JSString) : KeyMap := m.filter (fun e => e.1 ≠ key)

/-- The call `roomKeys.set(k, v)`; the order of entries is never observed. -/
def KeyMap.set (m : KeyMap) (key : JSString) (v : Bytes) : KeyMap := (key, v) :: m.delete key

/-- An instance of `EncryptionService`; the other fields are constants. -/
structure EncryptionService where
  roomKeys : KeyMap
deriving DecidableEq

namespace EncryptionService

/-- Field `keyLength`. -/
def keyLength : Nat := 256

/-- Field `ivLength`. -/
def ivLength : Nat := 12

/-- Field `tagLength`. -/
def tagLength : Nat := 128

/-- The salt of the key derivation. -/
def salt : JSString := js "wishpernet-room-salt"

/-- The info string of the key derivation. -/
def info : JSString := js "room-encryption"

/-- The constructor: an empty key map. -/
def new : EncryptionService := { roomKeys := [] }

/-- The key HKDF gives for a room token. -/
def keyOf (c : WebCrypto) (roomToken : JSString) : Bytes :=
  c.hkdf (TextEncoder.encode roomToken) (TextEncoder.encode salt) (TextEncoder.encode info)
    keyLength

/-- Method `deriveRoomKey`: the cached key, or a newly derived key that is then cached. -/
def deriveRoomKey (c : WebCrypto) (self : EncryptionService) (roomToken : JSString) :
    Bytes × EncryptionService :=
  match self.roomKeys.get roomToken with
  | some key => (key, self)
  | none =>
    let key := keyOf c roomToken
    (key, { roomKeys := self.roomKeys.set roomToken key })

/-- The call `crypto.getRandomValues(new Uint8Array(n))` on a source of random bytes. -/
def getRandomValues (rng : Nat → Byte) (n : Nat) : Bytes := (List.range n).map rng

/-- Method `encrypt`: the base64 envelope of `iv ‖ AES-GCM(key, iv, UTF-8(message))`, or
`null` when anything throws: AES-GCM, the spread call of `String.fromCharCode`, `btoa`.
The key stays cached in both cases. -/
def encrypt (c : WebCrypto) (self : EncryptionService) (rng : Nat → Byte)
    (message roomToken : JSString) : Option JSString × EncryptionService :=
  let derived := deriveRoomKey c self roomToken
  let data := TextEncoder.encode message
  let iv := getRandomValues rng ivLength
  match c.aesGcmEncrypt derived.1 iv tagLength data with
  | none => (none, derived.2)
  | some encrypted =>
    let combined := iv ++ encrypted
    match fromCharCode c.maxArguments combined with
    | none => (none, derived.2)
    | some binary => (btoa binary, derived.2)

/-- Method `decrypt`: the text of an envelope, or `null` when anything throws. -/
def decrypt (c : WebCrypto) (self : EncryptionService) (encryptedData roomToken : JSString) :
    Option JSString × EncryptionService :=
  let derived := deriveRoomKey c self roomToken
  match atob encryptedData with
  | none => (none, derived.2)
  | some binary =>
    let combined := uint8ArrayFromCharCodes binary
    let iv := combined.take ivLength
    let encrypted := combined.drop ivLength
    match c.aesGcmDecrypt derived.1 iv tagLength encrypted with
    | none => (none, derived.2)
    | some decrypted => (some (TextDecoder.decode decrypted), derived.2)

/-- The test `roomKeys.has(roomToken)` with which `deriveRoomKey` begins. -/
def hasKey (self : EncryptionService) (roomToken : JSString) : Bool :=
  (self.roomKeys.get roomToken).isSome

/-- Method `clearRoomKey`. -/
def clearRoomKey (self : EncryptionService) (roomToken : JSString) : EncryptionService :=
  { roomKeys := self.roomKeys.delete roomToken }

/-- Every cached key is the key HKDF gives for its token: true of a new service and kept by
every method. -/
def Coherent (c : WebCrypto) (self : EncryptionService) : Bool :=
  self.roomKeys.all (fun e => decide (e.2 = keyOf c e.1))

end EncryptionService

/-! ## The token pattern -/

/-- The terms of the regular expressions the client uses. -/
inductive RegExpTerm where
  /-- The assertion `^` (no `m` flag): start of input. -/
  | inputStart
  /-- The assertion `$` (no `m` flag): end of input. -/
  | inputEnd
  /-- A character class of ranges with a quantifier `{n}`. -/
  | classRepeat (ranges : List (Nat × Nat)) (count : Nat)
deriving DecidableEq

/-- A code unit belongs to a class of ranges. -/
def matchesClass (ranges : List (Nat × Nat)) (u : CodeUnit) : Bool :=
  ranges.any (fun r => r.1 ≤ u.val && u.val ≤ r.2)

/-- Exactly `count` code units of the class: what remains of the input after them. -/
def matchRepeat (ranges : List (Nat × Nat)) : Nat → JSString → Option JSString
  | 0, input => some input
  | _ + 1, [] => none
  | n + 1, u :: rest => if matchesClass ranges u then matchRepeat ranges n rest else none

/-- Match of a sequence of terms at a position: `atStart` tells whether the position is the
start of the input, `input` is what follows the position. -/
def matchTerms : List RegExpTerm → Bool → JSString → Bool
  | [], _, _ => true
  | RegExpTerm.inputStart :: ts, atStart, input => atStart && matchTerms ts atStart input
  | RegExpTerm.inputEnd :: ts, atStart, input => input.isEmpty && matchTerms ts atStart input
  | RegExpTerm.classRepeat ranges count :: ts, atStart, input =>
    match matchRepeat ranges count input with
    | none => false
    | some rest => matchTerms ts (atStart && count == 0) rest

/-- Search for a match from every position of the input, as `test` does. -/
def searchFrom (terms : List RegExpTerm) : Bool → JSString → Bool
  | atStart, [] => matchTerms terms atStart []
  | atStart, u :: rest => matchTerms terms atStart (u :: rest) || searchFrom terms false rest

/-- The call `regexp.test(s)`. -/
def regExpTest (terms : List RegExpTerm) (s : JSString) : Bool := searchFrom terms true s

/-- The pattern `/^[a-f0-9]{64}$/`. -/
def tokenPattern : List RegExpTerm :=
  [RegExpTerm.inputStart, RegExpTerm.classRepeat [(97, 102), (48, 57)] 64, RegExpTerm.inputEnd]

/-- The test `isValidToken` of `initLogin`. -/
def isValidToken (roomToken : JSString) : Bool := regExpTest tokenPattern roomToken

/-- A lowercase hexadecimal digit, `0-9` or `a-f`. -/
def isLowerHex (u : CodeUnit) : Bool :=
  (48 ≤ u.val && u.val ≤ 57) || (97 ≤ u.val && u.val ≤ 102)


/-! ## Session storage and network requests -/

/-- The two items the client keeps in `sessionStorage`. -/
structure SessionStorage where
  /-- Item `_roomToken`. -/
  roomToken : Option JSString
  /-- Item `_username`. -/
  username : Option JSString
deriving DecidableEq

/-- A call of `fetch`. -/
inductive Request where
  /-- The request `GET /api/create-room`. -/
  | createRoom
  /-- The request `GET /api/check-room?token=` with the token before URI encoding. -/
  | checkRoom (token : JSString)
deriving DecidableEq

/-! ## The login page -/

/-- A call suspended at `await fetch(...)` on the login page. -/
inductive LoginAwait where
  /-- Method `createRoom(username)` waiting for its response. -/
  | createRoom (username : JSString)
  /-- Method `joinExistingRoom(username, roomToken)` waiting for its response. -/
  | joinExistingRoom (username roomToken : JSString)
deriving DecidableEq

/-- The login page: what `initLogin` and its handlers read and write. -/
structure LoginPage where
  /-- The global `window._pendingRoomToken`. -/
  pendingRoomToken : Option JSString
  /-- The form shows "Join Chat Room" and hides the create section. -/
  joinMode : Bool
  storage : SessionStorage
  requests : List Request
  awaiting : List LoginAwait
  alerts : List JSString
  /-- The last assignment to `window.location.href`. -/
  location : Option JSString
deriving DecidableEq

/-- A login page that has just loaded. -/
def LoginPage.loaded (storage : SessionStorage) : LoginPage :=
  { pendingRoomToken := none, joinMode := false, storage := storage, requests := [],
    awaiting := [], alerts := [], location := none }

/-- What happens on the login page after `initLogin`. -/
inductive LoginEvent where
  /-- The form is submitted with this value in the username field. -/
  | submit (usernameInput : JSString)
  /-- The create button is clicked with this value in the username field. -/
  | createRoomClick (usernameInput : JSString)
  /-- The `i`-th waiting `createRoom` receives `{roomToken}`. -/
  | createRoomResponse (i : Nat) (roomToken : JSString)
  /-- The `i`-th waiting `joinExistingRoom` receives `{exists}`. -/
  | checkRoomResponse (i : Nat) (roomExists : Bool)
  /-- The `i`-th waiting request fails. -/
  | fetchError (i : Nat)
deriving DecidableEq

namespace ChatApp

/-- Method `initLogin` up to the registration of the handlers: the `token` parameter of the
URL is kept as pending token only when it matches the token pattern. -/
def initLogin (page : LoginPage) (urlToken : Option JSString) : LoginPage :=
  if truthy urlToken then
    if isValidToken (stringArg urlToken) then
      { page with joinMode := true, pendingRoomToken := urlToken }
    else
      { page with alerts := page.alerts ++
          [js "Invalid room link. Please check the link and try again."] }
  else page

/-- Method `createRoom` up to `await fetch('/api/create-room')`. -/
def createRoom (page : LoginPage) (username : JSString) : LoginPage :=
  { page with requests := page.requests ++ [Request.createRoom],
              awaiting := page.awaiting ++ [LoginAwait.createRoom username] }

/-- Method `joinExistingRoom` up to `await fetch` of the check-room request. -/
def joinExistingRoom (page : LoginPage) (username roomToken : JSString) : LoginPage :=
  { page with requests := page.requests ++ [Request.checkRoom roomToken],
              awaiting := page.awaiting ++ [LoginAwait.joinExistingRoom username roomToken] }

/-- The handlers of the login page and the continuations of its requests. -/
def loginStep (page : LoginPage) : LoginEvent → LoginPage
  | LoginEvent.submit usernameInput =>
    let username := trim usernameInput
    if username.isEmpty then page
    else if truthy page.pendingRoomToken then
      joinExistingRoom page username (stringArg page.pendingRoomToken)
    else createRoom page username
  | LoginEvent.createRoomClick usernameInput =>
    let username := trim usernameInput
    if username.isEmpty then page else createRoom page username
  | LoginEvent.createRoomResponse i roomToken =>
    match page.awaiting.get? i with
    | some (LoginAwait.createRoom username) =>
      { page with awaiting := page.awaiting.eraseIdx i,
                  storage := { roomToken := some roomToken, username := some username },
                  location := some (js "chat.html") }
    | _ => page
  | LoginEvent.checkRoomResponse i roomExists =>
    match page.awaiting.get? i with
    | some (LoginAwait.joinExistingRoom username roomToken) =>
      if roomExists then
        { page with awaiting := page.awaiting.eraseIdx i,
                    storage := { roomToken := some roomToken, username := some username },
                    location := some (js "chat.html") }
      else
        { page with awaiting := page.awaiting.eraseIdx i,
                    alerts := page.alerts ++ [js "This chat room does not exist or has expired."],
                    location := some (js "index.html") }
    | _ => page
  | LoginEvent.fetchError i =>
    match page.awaiting.get? i with
    | some (LoginAwait.createRoom _) =>
      { page with awaiting := page.awaiting.eraseIdx i,
                  alerts := page.alerts ++ [js "Failed to create room. Please try again."] }
    | some (LoginAwait.joinExistingRoom _ _) =>
      { page with awaiting := page.awaiting.eraseIdx i,
                  alerts := page.alerts ++ [js "Failed to join room. Please try again."] }
    | none => page

/-- The login page after a sequence of events. -/
def loginRun (page : LoginPage) (events : List LoginEvent) : LoginPage :=
  events.foldl loginStep page

end ChatApp

/-! ## The chat page -/

/-- The payload of a `new-message` event and of an entry of the history. -/
structure MessageData where
  username : JSString
  encryptedMessage : JSString
  timestamp : Nat
  messageId : Option JSString
deriving DecidableEq

/-- A rendered message: a `div.message` appended to the element `messages`. -/
structure MessageElement where
  sent : Bool
  messageId : JSString
  timestamp : Nat
  username : JSString
  /-- The text shown in `div.message-text`. -/
  text : JSString
deriving DecidableEq

/-- The payload of a `send-message` event. -/
structure SendPayload where
  roomToken : Option JSString
  encryptedMessage : JSString
  timestamp : Nat
  username : Option JSString
deriving DecidableEq

/-- An event the client emits on the socket. -/
inductive Emit where
  | joinRoom (roomToken : Option JSString) (username : Option JSString)
  | sendMessage (payload : SendPayload)
deriving DecidableEq

/-- A call of `encrypt` or `decrypt` with its arguments. -/
inductive CryptoCall where
  | encrypt (message : JSString) (roomToken : Option JSString)
  | decrypt (encryptedData : JSString) (roomToken : Option JSString)
deriving DecidableEq

/-- The room token argument of a call. -/
def CryptoCall.roomToken : CryptoCall → Option JSString
  | CryptoCall.encrypt _ t => t
  | CryptoCall.decrypt _ t => t

/-- A call of `displayMessage` suspended at `await this.encryption.decrypt(...)`. -/
structure PendingDisplay where
  sent : Bool
  messageId : JSString
  timestamp : Nat
  username : JSString
  encryptedMessage : JSString
  roomToken : Option JSString
  /-- The key map had the token when `decrypt` was called: `deriveRoomKey` returned the
  cached key at once and stores nothing later. -/
  keyCached : Bool
deriving DecidableEq

/-- A call of `sendMessage` suspended at `await this.encryption.encrypt(...)`. -/
structure PendingSend where
  message : JSString
  roomToken : Option JSString
  /-- The key map had the token when `encrypt` was called: `deriveRoomKey` returned the
  cached key at once and stores nothing later. -/
  keyCached : Bool
deriving DecidableEq

/-- The payload of a `room-joined` event. -/
structure RoomJoined where
  roomToken : Option JSString
  userCount : Nat
  messages : List MessageData
deriving DecidableEq

/-- The response of the check-room request. -/
structure RoomCheck where
  /-- Field `exists`. -/
  roomExists : Bool
  primaryRoomToken : Option JSString
deriving DecidableEq

/-- The chat controller with the parts of the page it reads and writes. -/
structure ChatApp where
  /-- The field `socket` is set. -/
  socket : Bool
  username : Option JSString
  roomToken : Option JSString
  encryption : EncryptionService
  displayedMessageIds : List JSString
  storage : SessionStorage
  /-- The message elements inside the element `messages`; `none` when there is no such
  element. -/
  messages : Option (List MessageElement)
  /-- The element `messagesContainer` is present. -/
  messagesContainer : Bool
  /-- The value of the element `messageInput`; `none` when there is no such element. -/
  messageInput : Option JSString
  /-- The flag `disabled` of the element `sendBtn`; `none` when there is no such element. -/
  sendBtn : Option Bool
  status : JSString
  userCount : Nat
  requests : List Request
  emitted : List Emit
  alerts : List JSString
  location : Option JSString
  /-- Every call of `encrypt` and `decrypt` made so far, in order. -/
  cryptoLog : List CryptoCall
  pendingDisplays : List PendingDisplay
  pendingSends : List PendingSend
  /-- The number of exceptions that escaped a handler. -/
  uncaught : Nat
deriving DecidableEq

/-- What happens on the chat page once `initChat` has set up the socket and the handlers. -/
inductive Action where
  | connect
  | disconnect
  | roomJoined (data : RoomJoined) (random : Nat → JSString)
  | newMessage (data : MessageData) (random : JSString)
  /-- The user edits the message field. -/
  | input (value : JSString)
  /-- A click on the send button; a disabled button gives no click. -/
  | clickSend
  /-- The key Enter in the message field. -/
  | pressEnter (shiftKey : Bool)
  /-- The decryption of the `i`-th suspended `displayMessage` settles. -/
  | decryptSettles (i : Nat)
  /-- The encryption of the `i`-th suspended `sendMessage` settles. -/
  | encryptSettles (i : Nat) (rng : Nat → Byte) (now : Nat)

namespace ChatApp

/-- The chat page as the constructor and a loaded document give it. -/
def loaded (storage : SessionStorage) : ChatApp :=
  { socket := false, username := none, roomToken := none, encryption := EncryptionService.new,
    displayedMessageIds := [], storage := storage, messages := some [],
    messagesContainer := true, messageInput := some [], sendBtn := some false,
    status := [], userCount := 0, requests := [], emitted := [], alerts := [],
    location := none, cryptoLog := [], pendingDisplays := [], pendingSends := [],
    uncaught := 0 }

/-- The text shown for a message that could not be decrypted. -/
def failurePlaceholder : JSString := js "[Encrypted message - decryption failed]"

/-- Method `joinRoom`. -/
def joinRoom (app : ChatApp) (roomToken : Option JSString) : ChatApp :=
  { app with emitted := app.emitted ++ [Emit.joinRoom roomToken app.username] }

/-- Method `initChat`, given the response of its check-room request. -/
def initChat (app : ChatApp) (roomData : RoomCheck) : ChatApp :=
  let roomToken := app.storage.roomToken
  let username := app.storage.username
  if !truthy roomToken || !truthy username then
    { app with location := some (js "index.html") }
  else
    let app := { app with username := username, roomToken := roomToken,
                          requests := app.requests ++ [Request.checkRoom (stringArg roomToken)] }
    if !roomData.roomExists then
      { app with alerts := app.alerts ++ [js "This chat room does not exist or has expired."],
                 storage := { roomToken := none, username := none },
                 location := some (js "index.html") }
    else
      let app :=
        if truthy roomData.primaryRoomToken then
          { app with roomToken := roomData.primaryRoomToken,
                     storage := { app.storage with roomToken := roomData.primaryRoomToken } }
        else app
      let app := { app with socket := true }
      joinRoom app app.roomToken

/-- The message id `displayMessage` makes up when the event carries none. -/
def fallbackMessageId (data : MessageData) (random : JSString) : JSString :=
  js "msg-" ++ numberToString data.timestamp ++ js "-" ++ data.username ++ js "-" ++ random

/-- The message id `displayMessage` uses. -/
def resolveMessageId (data : MessageData) (messageId : Option JSString) (random : JSString) :
    JSString :=
  if truthy messageId then stringArg messageId
  else if truthy data.messageId then stringArg data.messageId
  else fallbackMessageId data random

/-- Method `displayMessage` up to `await this.encryption.decrypt(...)`: nothing happens
without the element `messages` or for a message id already displayed; otherwise `decrypt`
is called with the current room token. -/
def displayMessageUntilAwait (app : ChatApp) (data : MessageData) (isSent : Bool)
    (messageId : Option JSString) (random : JSString) : ChatApp × Option PendingDisplay :=
  match app.messages with
  | none => (app, none)
  | some _ =>
    let messageId := resolveMessageId data messageId random
    if messageId ∈ app.displayedMessageIds then (app, none)
    else
      ({ app with cryptoLog := app.cryptoLog ++
            [CryptoCall.decrypt data.encryptedMessage app.roomToken] },
       some { sent := isSent, messageId := messageId, timestamp := data.timestamp,
              username := data.username, encryptedMessage := data.encryptedMessage,
              roomToken := app.roomToken,
              keyCached := app.encryption.hasKey (stringArg app.roomToken) })

/-- Method `displayMessage` after the await: the decrypted text or the placeholder is
rendered, the message id is recorded, the view scrolls to the bottom.  The call of `decrypt`
settles in this step; a key that was not cached when `decrypt` was called is stored by
`deriveRoomKey` now, a key that was cached then is not stored again. -/
def displayMessageAfterAwait (c : WebCrypto) (app : ChatApp) (p : PendingDisplay) : ChatApp :=
  let r := EncryptionService.decrypt c app.encryption p.encryptedMessage (stringArg p.roomToken)
  let messageText := if truthy r.1 then stringArg r.1 else failurePlaceholder
  let element : MessageElement :=
    { sent := p.sent, messageId := p.messageId, timestamp := p.timestamp,
      username := p.username, text := messageText }
  let app :=
    { app with encryption := if p.keyCached then app.encryption else r.2,
               messages := app.messages.map (fun els => els ++ [element]),
               displayedMessageIds :=
                 if p.messageId ∈ app.displayedMessageIds then app.displayedMessageIds
                 else app.displayedMessageIds ++ [p.messageId] }
  if app.messagesContainer then app else { app with uncaught := app.uncaught + 1 }

/-- Method `displayMessage` run without interruption. -/
def displayMessage (c : WebCrypto) (app : ChatApp) (data : MessageData) (isSent : Bool)
    (messageId : Option JSString) (random : JSString) : ChatApp :=
  match displayMessageUntilAwait app data isSent messageId random with
  | (app, none) => app
  | (app, some p) => displayMessageAfterAwait c app p

/-- A suspended `displayMessage` is added to the waiting ones. -/
def suspendDisplay (r : ChatApp × Option PendingDisplay) : ChatApp :=
  { r.1 with pendingDisplays := r.1.pendingDisplays ++ r.2.toList }

/-- The handler of `new-message`, up to the await. -/
def onNewMessage (app : ChatApp) (data : MessageData) (random : JSString) : ChatApp :=
  suspendDisplay
    (displayMessageUntilAwait app data (decide (some data.username = app.username))
      data.messageId random)

/-- The loop over the history in the handler of `room-joined`: `displayMessage(msg, false)`
for each entry, none of them awaited. -/
def replayHistory (app : ChatApp) : List MessageData → (Nat → JSString) → ChatApp
  | [], _ => app
  | msg :: rest, random =>
    replayHistory (suspendDisplay (displayMessageUntilAwait app msg false none (random 0)))
      rest (fun i => random (i + 1))

/-- The handler of `room-joined`. -/
def onRoomJoined (app : ChatApp) (data : RoomJoined) (random : Nat → JSString) : ChatApp :=
  let app :=
    if truthy data.roomToken then
      { app with roomToken := data.roomToken,
                 storage := { app.storage with roomToken := data.roomToken } }
    else app
  let app := { app with status := js "Connected", userCount := data.userCount }
  replayHistory app data.messages random

/-- The handler of `disconnect`. -/
def onDisconnect (app : ChatApp) : ChatApp :=
  let app := { app with status := js "Disconnected" }
  if truthy app.roomToken then
    { app with encryption := app.encryption.clearRoomKey (stringArg app.roomToken) }
  else app

/-- Method `sendMessage` up to `await this.encryption.encrypt(...)`. -/
def sendMessageUntilAwait (app : ChatApp) : ChatApp × Option PendingSend :=
  match app.messageInput with
  | none => (app, none)
  | some value =>
    let message := trim value
    if message.isEmpty then (app, none)
    else if !app.socket || !truthy app.roomToken then
      ({ app with alerts := app.alerts ++
          [js "Not connected to chat. Please refresh the page."] }, none)
    else
      ({ app with sendBtn := app.sendBtn.map (fun _ => true),
                  cryptoLog := app.cryptoLog ++ [CryptoCall.encrypt message app.roomToken] },
       some { message := message, roomToken := app.roomToken,
              keyCached := app.encryption.hasKey (stringArg app.roomToken) })

/-- Method `sendMessage` after the await: without an envelope an alert, otherwise the
`send-message` event with the envelope; the send button is enabled again in both cases.
The call of `encrypt` settles in this step; a key that was not cached when `encrypt` was
called is stored by `deriveRoomKey` now, a key that was cached then is not stored again. -/
def sendMessageAfterAwait (c : WebCrypto) (app : ChatApp) (p : PendingSend)
    (rng : Nat → Byte) (now : Nat) : ChatApp :=
  let r := EncryptionService.encrypt c app.encryption rng p.message (stringArg p.roomToken)
  let app := { app with encryption := if p.keyCached then app.encryption else r.2 }
  if !truthy r.1 then
    { app with alerts := app.alerts ++ [js "Failed to encrypt message. Please try again."],
               sendBtn := app.sendBtn.map (fun _ => false) }
  else
    { app with emitted := app.emitted ++
                 [Emit.sendMessage { roomToken := app.roomToken, encryptedMessage := stringArg r.1,
                                     timestamp := now, username := app.username }],
               messageInput := app.messageInput.map (fun _ => []),
               sendBtn := app.sendBtn.map (fun _ => false) }

/-- Method `sendMessage` run without interruption. -/
def sendMessage (c : WebCrypto) (app : ChatApp) (rng : Nat → Byte) (now : Nat) : ChatApp :=
  match sendMessageUntilAwait app with
  | (app, none) => app
  | (app, some p) => sendMessageAfterAwait c app p rng now

/-- A suspended `sendMessage` is added to the waiting ones. -/
def suspendSend (r : ChatApp × Option PendingSend) : ChatApp :=
  { r.1 with pendingSends := r.1.pendingSends ++ r.2.toList }

/-- One step of the chat page: a handler runs up to its first await, or a suspended call
resumes. -/
def step (c : WebCrypto) (app : ChatApp) : Action → ChatApp
  | Action.connect => { app with status := js "Connected" }
  | Action.disconnect => onDisconnect app
  | Action.roomJoined data random => onRoomJoined app data random
  | Action.newMessage data random => onNewMessage app data random
  | Action.input value => { app with messageInput := app.messageInput.map (fun _ => value) }
  | Action.clickSend =>
    if app.sendBtn = some false then suspendSend (sendMessageUntilAwait app) else app
  | Action.pressEnter shiftKey =>
    if shiftKey then app else suspendSend (sendMessageUntilAwait app)
  | Action.decryptSettles i =>
    match app.pendingDisplays.get? i with
    | none => app
    | some p =>
      displayMessageAfterAwait c { app with pendingDisplays := app.pendingDisplays.eraseIdx i } p
  | Action.encryptSettles i rng now =>
    match app.pendingSends.get? i with
    | none => app
    | some p =>
      sendMessageAfterAwait c { app with pendingSends := app.pendingSends.eraseIdx i } p rng now

/-- The chat page after a sequence of steps. -/
def run (c : WebCrypto) (app : ChatApp) (actions : List Action) : ChatApp :=
  actions.foldl (step c) app

end ChatApp


/-! ## Auxiliary definitions for the proofs -/

/-- A Unicode scalar value: a code point that is not a surrogate. -/
def IsScalar (cp : Nat) : Prop := cp < 0x110000 ∧ ¬ (0xD800 ≤ cp ∧ cp ≤ 0xDFFF)

/-- The 6-bit values of the base64 encoding of a byte sequence, without padding. -/
def sextets : Bytes → List Nat
  | [] => []
  | [a] => [a.val / 4, a.val % 4 * 16]
  | [a, b] => [a.val / 4, a.val % 4 * 16 + b.val / 16, b.val % 16 * 4]
  | a :: b :: c :: rest =>
    a.val / 4 :: (a.val % 4 * 16 + b.val / 16) :: (b.val % 16 * 4 + c.val / 64) :: c.val % 64 ::
      sextets rest

/-- The padding that completes the last group of an encoding. -/
def padding : Bytes → JSString
  | [] => []
  | [_] => [padChar, padChar]
  | [_, _] => [padChar]
  | _ :: _ :: _ :: rest => padding rest

/-- A message cannot be decrypted under a key: `atob` throws, or AES-GCM rejects what
follows the first 12 bytes (too short for a tag, or failing authentication). -/
def undecryptable (c : WebCrypto) (key : Bytes) (encryptedData : JSString) : Bool :=
  match atob encryptedData with
  | none => true
  | some binary =>
    (c.aesGcmDecrypt key ((uint8ArrayFromCharCodes binary).take EncryptionService.ivLength)
      EncryptionService.tagLength
      ((uint8ArrayFromCharCodes binary).drop EncryptionService.ivLength)).isNone

/-- An action that leaves the room token at `P`: a `room-joined` event carries no token or
carries `P`. -/
def KeepsToken (P : JSString) : Action → Prop
  | Action.roomJoined data _ => truthy data.roomToken = true → data.roomToken = some P
  | _ => True

/-- Between two states the room token has become `P` and every call of `encrypt` or
`decrypt` added to the log was made with `P`. -/
def LogFrom (P : JSString) (app app' : ChatApp) : Prop :=
  app'.roomToken = some P ∧
    ∃ added, app'.cryptoLog = app.cryptoLog ++ added ∧ ∀ call ∈ added, call.roomToken = some P

/-- The lowercase hexadecimal digit of a value below 16. -/
def hexDigit (d : Fin 16) : CodeUnit :=
  if d.val < 10 then toUint16 (48 + d.val) else toUint16 (87 + d.val)

/-- The room token whose 64 digits are given. -/
def hexToken (digits : Fin 64 → Fin 16) : JSString := List.ofFn (fun i => hexDigit (digits i))

/-! ## Sample values -/

/-- A stand-in for Web Crypto whose AES-GCM appends a tag of zero bytes. -/
def toyCrypto : WebCrypto where
  hkdf := fun material salt info _ => material ++ salt ++ info
  aesGcmEncrypt := fun _ _ tagLength data => some (data ++ List.replicate (tagLength / 8) 0)
  aesGcmDecrypt := fun _ _ tagLength ct =>
    if tagLength / 8 ≤ ct.length then some (ct.take (ct.length - tagLength / 8)) else none
  maxArguments := 65535

/-- The stand-in `toyCrypto` on an engine that accepts 30 arguments. -/
def cappedCrypto : WebCrypto := { toyCrypto with maxArguments := 30 }

/-- A self-delimiting copy of a key. -/
def keyFrame (key : Bytes) : Bytes := key.flatMap (fun b => [1, b]) ++ [0]

/-- A stand-in for Web Crypto whose ciphertext names its key, so that every other key
rejects it. -/
def sealedCrypto : WebCrypto where
  hkdf := fun material salt info _ => material ++ salt ++ info
  aesGcmEncrypt := fun key _ _ data => some (keyFrame key ++ data)
  aesGcmDecrypt := fun key _ _ ct =>
    if (keyFrame key).isPrefixOf ct then some (ct.drop (keyFrame key).length) else none
  maxArguments := 65535

/-- A room token: 64 times `a`. -/
def tokenA : JSString := List.replicate 64 (toUint16 97)

/-- Another room token: 64 times `b`. -/
def tokenB : JSString := List.replicate 64 (toUint16 98)

/-- A source of random bytes that gives zero every time. -/
def zeroRng : Nat → Byte := fun _ => 0

/-- A chat page of user alice that has joined room `tokenA`. -/
def sampleChat : ChatApp :=
  ChatApp.initChat (ChatApp.loaded { roomToken := some tokenA, username := some (js "alice") })
    { roomExists := true, primaryRoomToken := none }

/-- A message of user bob with the message id "m1". -/
def sampleMessage : MessageData :=
  { username := js "bob", encryptedMessage := js "AAAA", timestamp := 1700000000000,
    messageId := some (js "m1") }

/-- A chat page of user alice that has joined with `tokenB`. -/
def sampleChatB : ChatApp :=
  ChatApp.initChat (ChatApp.loaded { roomToken := some tokenB, username := some (js "alice") })
    { roomExists := true, primaryRoomToken := none }

/-- The chat page `sampleChat` with a text typed into the message field. -/
def sampleTyping (value : JSString) : ChatApp := { sampleChat with messageInput := some value }

/-! ## Base64 and text encoding: round trips -/

theorem base64Encode_eq (bs : Bytes) :
    base64Encode bs = (sextets bs).map base64Char ++ padding bs := by
  induction bs using base64Encode.induct with
  | case1 => rfl
  | case2 a => rfl
  | case3 a b => rfl
  | case4 a b c rest ih => simp [base64Encode, sextets, padding, ih]

theorem sextets_lt (bs : Bytes) : ∀ v ∈ sextets bs, v < 64 := by
  induction bs using base64Encode.induct with
  | case1 => simp [sextets]
  | case2 a => simp [sextets]; omega
  | case3 a b => simp [sextets]; omega
  | case4 a b c rest ih =>
    intro v hv
    simp only [sextets, List.mem_cons] at hv
    rcases hv with h | h | h | h | h
    · omega
    · omega
    · omega
    · omega
    · exact ih v h

theorem sextets_length (bs : Bytes) : (sextets bs).length % 4 ≠ 1 := by
  induction bs using base64Encode.induct with
  | case1 => simp [sextets]
  | case2 a => simp [sextets]
  | case3 a b => simp [sextets]
  | case4 a b c rest ih => simp only [sextets, List.length_cons]; omega

theorem base64Encode_length (bs : Bytes) : (base64Encode bs).length % 4 = 0 := by
  induction bs using base64Encode.induct with
  | case1 => simp [base64Encode]
  | case2 a => simp [base64Encode]
  | case3 a b => simp [base64Encode]
  | case4 a b c rest ih => simp only [base64Encode, List.length_cons]; omega

theorem padding_cases (bs : Bytes) :
    padding bs = [] ∨ padding bs = [padChar] ∨ padding bs = [padChar, padChar] := by
  induction bs using base64Encode.induct with
  | case1 => simp [padding]
  | case2 a => simp [padding]
  | case3 a b => simp [padding]
  | case4 a b c rest ih => simpa [padding] using ih

theorem base64Value_base64Char : ∀ n : Fin 64, base64Value (base64Char n.val) = some n.val := by
  decide

theorem base64Char_ne_pad : ∀ n : Fin 64, base64Char n.val ≠ padChar := by decide

theorem base64Char_not_ws : ∀ n : Fin 64, isAsciiWhitespace (base64Char n.val) = false := by
  decide

theorem base64DecodeValues_sextets (bs : Bytes) : base64DecodeValues (sextets bs) = bs := by
  induction bs using base64Encode.induct with
  | case1 => rfl
  | case2 a =>
    simp only [sextets, base64DecodeValues, toUint8, List.cons.injEq, and_true]
    apply Fin.ext; simp only []; omega
  | case3 a b =>
    simp only [sextets, base64DecodeValues, toUint8, List.cons.injEq, and_true]
    refine ⟨?_, ?_⟩ <;> apply Fin.ext <;> simp only [] <;> omega
  | case4 a b c rest ih =>
    simp only [sextets, base64DecodeValues, toUint8, List.cons.injEq, ih, and_true]
    refine ⟨?_, ?_, ?_⟩ <;> apply Fin.ext <;> simp only [] <;> omega

theorem base64Values_map (vs : List Nat) (h : ∀ v ∈ vs, v < 64) :
    base64Values (vs.map base64Char) = some vs := by
  induction vs with
  | nil => rfl
  | cons v vs ih =>
    have hv : v < 64 := h v (List.mem_cons_self _ _)
    have h1 := base64Value_base64Char ⟨v, hv⟩
    simp only [List.map_cons, base64Values, h1, ih (fun w hw => h w (List.mem_cons_of_mem _ hw))]

theorem filter_ws_encode (bs : Bytes) :
    (base64Encode bs).filter (fun u => !isAsciiWhitespace u) = base64Encode bs := by
  rw [List.filter_eq_self]
  intro u hu
  rw [base64Encode_eq, List.mem_append, List.mem_map] at hu
  rcases hu with ⟨v, hv, rfl⟩ | hu
  · simp [base64Char_not_ws ⟨v, sextets_lt bs v hv⟩]
  · rcases padding_cases bs with h | h | h <;> rw [h] at hu <;> simp at hu <;> subst hu <;> decide

theorem stripPadding_encode (bs : Bytes) :
    stripPadding (base64Encode bs) = (sextets bs).map base64Char := by
  rw [base64Encode_eq]
  have hne : ∀ u ∈ ((sextets bs).map base64Char).reverse, u ≠ padChar := by
    intro u hu
    rw [List.mem_reverse, List.mem_map] at hu
    obtain ⟨v, hv, rfl⟩ := hu
    exact base64Char_ne_pad ⟨v, sextets_lt bs v hv⟩
  generalize (sextets bs).map base64Char = xs at hne ⊢
  have hrev : xs = xs.reverse.reverse := (List.reverse_reverse xs).symm
  generalize xs.reverse = r at hne hrev
  subst hrev
  rcases padding_cases bs with h | h | h <;> rw [h]
  · match r, hne with
    | [], _ => rfl
    | [p], hne => simp [stripPadding, hne p (by simp)]
    | p :: q :: r, hne => simp [stripPadding, hne p (by simp)]
  · match r, hne with
    | [], _ => simp [stripPadding]
    | q :: r, hne => simp [stripPadding, hne q (by simp)]
  · simp [stripPadding]

theorem forgivingBase64Decode_encode (bs : Bytes) :
    forgivingBase64Decode (base64Encode bs) = some bs := by
  unfold forgivingBase64Decode
  simp only [filter_ws_encode, base64Encode_length, if_true, stripPadding_encode]
  rw [if_neg (by simpa using sextets_length bs), base64Values_map _ (sextets_lt bs)]
  simp [base64DecodeValues_sextets]

theorem toUint8_toUint16 (b : Byte) : toUint8 (toUint16 b.val).val = b := by
  apply Fin.ext; simp only [toUint8, toUint16]; omega

theorem btoa_binaryString (bs : Bytes) : btoa (binaryString bs) = some (base64Encode bs) := by
  unfold btoa binaryString
  rw [if_pos]
  · simp [List.map_map, Function.comp_def, toUint8_toUint16]
  · simp only [List.all_eq_true, List.mem_map, decide_eq_true_eq]
    rintro u ⟨b, _, rfl⟩
    simp only [toUint16]; omega

theorem atob_base64Encode (bs : Bytes) : atob (base64Encode bs) = some (binaryString bs) := by
  simp [atob, forgivingBase64Decode_encode, binaryString]

theorem stringIterator_of_no_high (s : JSString) (h : ∀ u ∈ s, isHighSurrogate u = false) :
    stringIterator s = s.map (fun u => [u]) := by
  induction s using stringIterator.induct with
  | case1 => rfl
  | case2 u => rfl
  | case3 u v rest hs ih =>
    simp [h u (by simp)] at hs
  | case4 u v rest hs ih =>
    simp only [stringIterator, hs, List.map_cons, Bool.false_eq_true, if_false]
    rw [ih (fun w hw => h w (List.mem_cons_of_mem _ hw))]
    simp

theorem uint8ArrayFromCharCodes_binaryString (bs : Bytes) :
    uint8ArrayFromCharCodes (binaryString bs) = bs := by
  unfold uint8ArrayFromCharCodes
  rw [stringIterator_of_no_high]
  · simp [binaryString, List.map_map, Function.comp_def, toUint8_toUint16]
  · intro u hu
    simp only [binaryString, List.mem_map] at hu
    obtain ⟨b, _, rfl⟩ := hu
    simp only [isHighSurrogate, toUint16, Bool.and_eq_false_imp, decide_eq_true_eq, decide_eq_false_iff_not]
    omega

theorem utf8Step_last (st : Utf8State) (b : Nat) (h0 : st.bytesNeeded ≠ 0)
    (hl : st.lower ≤ b) (hu : b ≤ st.upper) (hs : st.bytesSeen + 1 = st.bytesNeeded) :
    utf8Step st b = ([st.codePoint * 64 + b % 64], Utf8State.init) := by
  unfold utf8Step
  rw [if_neg h0, if_neg (by omega), if_pos hs]

theorem utf8Step_mid (st : Utf8State) (b : Nat) (h0 : st.bytesNeeded ≠ 0)
    (hl : st.lower ≤ b) (hu : b ≤ st.upper) (hs : st.bytesSeen + 1 ≠ st.bytesNeeded) :
    utf8Step st b =
      ([], Utf8State.mk (st.codePoint * 64 + b % 64) (st.bytesSeen + 1) st.bytesNeeded 0x80 0xBF) := by
  unfold utf8Step
  rw [if_neg h0, if_neg (by omega), if_neg hs]

theorem utf8Lead_two (b : Nat) (h1 : 0xC2 ≤ b) (h2 : b ≤ 0xDF) :
    utf8Lead b = ([], Utf8State.mk (b % 32) 0 1 0x80 0xBF) := by
  unfold utf8Lead
  rw [if_neg (by omega), if_pos ⟨h1, h2⟩]

theorem utf8Lead_three (b : Nat) (h1 : 0xE0 ≤ b) (h2 : b ≤ 0xEF) :
    utf8Lead b = ([], Utf8State.mk (b % 16) 0 2 (if b = 0xE0 then 0xA0 else 0x80)
      (if b = 0xED then 0x9F else 0xBF)) := by
  unfold utf8Lead
  rw [if_neg (by omega), if_neg (by omega), if_pos ⟨h1, h2⟩]

theorem utf8Lead_four (b : Nat) (h1 : 0xF0 ≤ b) (h2 : b ≤ 0xF4) :
    utf8Lead b = ([], Utf8State.mk (b % 8) 0 3 (if b = 0xF0 then 0x90 else 0x80)
      (if b = 0xF4 then 0x8F else 0xBF)) := by
  unfold utf8Lead
  rw [if_neg (by omega), if_neg (by omega), if_neg (by omega), if_pos ⟨h1, h2⟩]

theorem utf8Step_init (b : Nat) : utf8Step Utf8State.init b = utf8Lead b := by
  simp [utf8Step, Utf8State.init]

theorem utf8Decode_encodeScalar (cp : Nat) (h : IsScalar cp) (rest : Bytes) :
    utf8DecodeFrom Utf8State.init (utf8EncodeScalar cp ++ rest)
      = cp :: utf8DecodeFrom Utf8State.init rest := by
  obtain ⟨h1, h2⟩ := h
  unfold utf8EncodeScalar
  by_cases c1 : cp ≤ 0x7F
  · rw [if_pos c1]
    have e : (toUint8 cp).val = cp := by simp only [toUint8]; omega
    simp only [List.singleton_append, utf8DecodeFrom, e, utf8Step_init]
    simp only [utf8Lead, if_pos c1, List.singleton_append]
    rfl
  · rw [if_neg c1]
    by_cases c2 : cp ≤ 0x7FF
    · rw [if_pos c2]
      have e1 : (toUint8 (cp / 64 + 0xC0)).val = cp / 64 + 0xC0 := by simp only [toUint8]; omega
      have e2 : (toUint8 (0x80 + cp % 64)).val = 0x80 + cp % 64 := by simp only [toUint8]; omega
      simp only [List.cons_append, List.nil_append, utf8DecodeFrom, e1, e2, utf8Step_init]
      rw [utf8Lead_two _ (by omega) (by omega)]
      rw [utf8Step_last _ _ (by simp) (by simp only []; omega) (by simp only []; omega) (by simp)]
      simp only [List.nil_append, List.singleton_append, List.cons.injEq]
      exact ⟨by omega, rfl⟩
    · rw [if_neg c2]
      by_cases c3 : cp ≤ 0xFFFF
      · rw [if_pos c3]
        have e1 : (toUint8 (cp / 4096 + 0xE0)).val = cp / 4096 + 0xE0 := by
          simp only [toUint8]; omega
        have e2 : (toUint8 (0x80 + cp / 64 % 64)).val = 0x80 + cp / 64 % 64 := by
          simp only [toUint8]; omega
        have e3 : (toUint8 (0x80 + cp % 64)).val = 0x80 + cp % 64 := by simp only [toUint8]; omega
        simp only [List.cons_append, List.nil_append, utf8DecodeFrom, e1, e2, e3, utf8Step_init]
        rw [utf8Lead_three _ (by omega) (by omega)]
        rw [utf8Step_mid _ _ (by simp) (by simp only []; split <;> omega)
          (by simp only []; split <;> omega) (by simp)]
        rw [utf8Step_last _ _ (by simp) (by simp only []; omega) (by simp only []; omega) (by simp)]
        simp only [List.nil_append, List.singleton_append, List.cons.injEq]
        exact ⟨by omega, rfl⟩
      · rw [if_neg c3]
        have e1 : (toUint8 (cp / 262144 + 0xF0)).val = cp / 262144 + 0xF0 := by
          simp only [toUint8]; omega
        have e2 : (toUint8 (0x80 + cp / 4096 % 64)).val = 0x80 + cp / 4096 % 64 := by
          simp only [toUint8]; omega
        have e3 : (toUint8 (0x80 + cp / 64 % 64)).val = 0x80 + cp / 64 % 64 := by
          simp only [toUint8]; omega
        have e4 : (toUint8 (0x80 + cp % 64)).val = 0x80 + cp % 64 := by simp only [toUint8]; omega
        simp only [List.cons_append, List.nil_append, utf8DecodeFrom, e1, e2, e3, e4, utf8Step_init]
        rw [utf8Lead_four _ (by omega) (by omega)]
        rw [utf8Step_mid _ _ (by simp) (by simp only []; split <;> omega)
          (by simp only []; split <;> omega) (by simp)]
        rw [utf8Step_mid _ _ (by simp) (by simp only []; omega) (by simp only []; omega) (by simp)]
        rw [utf8Step_last _ _ (by simp) (by simp only []; omega) (by simp only []; omega) (by simp)]
        simp only [List.nil_append, List.singleton_append, List.cons.injEq]
        exact ⟨by omega, rfl⟩

theorem utf8Decode_encode (cps : List Nat) (h : ∀ cp ∈ cps, IsScalar cp) :
    utf8DecodeFrom Utf8State.init (cps.flatMap utf8EncodeScalar) = cps := by
  induction cps with
  | nil => simp [utf8DecodeFrom, Utf8State.init]
  | cons cp cps ih =>
    rw [List.flatMap_cons, utf8Decode_encodeScalar cp (h cp (List.mem_cons_self _ _)),
      ih (fun c hc => h c (List.mem_cons_of_mem _ hc))]

theorem isHighSurrogate_iff (u : CodeUnit) :
    isHighSurrogate u = true ↔ 0xD800 ≤ u.val ∧ u.val ≤ 0xDBFF := by
  simp [isHighSurrogate]

theorem isLowSurrogate_iff (u : CodeUnit) :
    isLowSurrogate u = true ↔ 0xDC00 ≤ u.val ∧ u.val ≤ 0xDFFF := by
  simp [isLowSurrogate]

theorem toScalarValues_scalar (s : JSString) : ∀ cp ∈ toScalarValues s, IsScalar cp := by
  induction s using toScalarValues.induct with
  | case1 => simp [toScalarValues]
  | case2 u hs =>
    intro cp hcp
    rw [toScalarValues, if_pos hs, List.mem_singleton] at hcp
    subst hcp; unfold IsScalar; omega
  | case3 u hn =>
    intro cp hcp
    rw [toScalarValues, if_neg hn, List.mem_singleton] at hcp
    subst hcp
    rw [Bool.or_eq_true, isHighSurrogate_iff, isLowSurrogate_iff] at hn
    unfold IsScalar; omega
  | case4 u v rest hu hv ih =>
    intro cp hcp
    rw [toScalarValues, if_pos hu, if_pos hv, List.mem_cons] at hcp
    rcases hcp with h | h
    · rw [isHighSurrogate_iff] at hu
      rw [isLowSurrogate_iff] at hv
      unfold IsScalar; omega
    · exact ih cp h
  | case5 u v rest hu hv ih =>
    intro cp hcp
    rw [toScalarValues, if_pos hu, if_neg hv, List.mem_cons] at hcp
    rcases hcp with h | h
    · subst h; unfold IsScalar; omega
    · exact ih cp h
  | case6 u v rest hu hl ih =>
    intro cp hcp
    rw [toScalarValues, if_neg hu, if_pos hl, List.mem_cons] at hcp
    rcases hcp with h | h
    · subst h; unfold IsScalar; omega
    · exact ih cp h
  | case7 u v rest hu hl ih =>
    intro cp hcp
    rw [toScalarValues, if_neg hu, if_neg hl, List.mem_cons] at hcp
    rcases hcp with h | h
    · subst h
      rw [isHighSurrogate_iff] at hu
      rw [isLowSurrogate_iff] at hl
      unfold IsScalar; omega
    · exact ih cp h

theorem codePointToUnits_unit (u : CodeUnit) : codePointToUnits u.val = [u] := by
  unfold codePointToUnits
  rw [if_pos (by omega)]
  simp only [toUint16, List.cons.injEq, and_true]
  apply Fin.ext; simp only []; omega

theorem codePointToUnits_pair (u v : CodeUnit) (hu : isHighSurrogate u = true)
    (hv : isLowSurrogate v = true) :
    codePointToUnits (0x10000 + (u.val - 0xD800) * 1024 + (v.val - 0xDC00)) = [u, v] := by
  rw [isHighSurrogate_iff] at hu
  rw [isLowSurrogate_iff] at hv
  unfold codePointToUnits
  rw [if_neg (by omega)]
  simp only [toUint16, List.cons.injEq, and_true]
  refine ⟨?_, ?_⟩ <;> apply Fin.ext <;> simp only [] <;> omega

theorem units_toScalarValues (s : JSString) (h : isWellFormed s = true) :
    (toScalarValues s).flatMap codePointToUnits = s := by
  induction s using toScalarValues.induct with
  | case1 => rfl
  | case2 u hs => rw [isWellFormed, hs] at h; exact absurd h (by decide)
  | case3 u hn =>
    rw [toScalarValues, if_neg hn]
    simp [codePointToUnits_unit]
  | case4 u v rest hu hv ih =>
    rw [isWellFormed, if_pos hu, hv, Bool.true_and] at h
    rw [toScalarValues, if_pos hu, if_pos hv, List.flatMap_cons, ih h,
      codePointToUnits_pair u v hu hv]
    rfl
  | case5 u v rest hu hv ih =>
    rw [isWellFormed, if_pos hu] at h
    simp [hv] at h
  | case6 u v rest hu hl ih =>
    rw [isWellFormed, if_neg hu] at h
    simp [hl] at h
  | case7 u v rest hu hl ih =>
    rw [isWellFormed, if_neg hu, Bool.and_eq_true] at h
    rw [toScalarValues, if_neg hu, if_neg hl, List.flatMap_cons, ih h.2, codePointToUnits_unit]
    rfl

theorem stripBOM_toScalarValues (s : JSString) (h : startsWithBOM s = false) :
    stripBOM (toScalarValues s) = toScalarValues s := by
  match s, h with
  | [], _ => rfl
  | [u], h =>
    simp only [startsWithBOM, beq_eq_false_iff_ne, ne_eq] at h
    simp only [toScalarValues]
    split <;> simp only [stripBOM] <;> rw [if_neg (by omega)]
  | u :: v :: rest, h =>
    simp only [startsWithBOM, beq_eq_false_iff_ne, ne_eq] at h
    simp only [toScalarValues]
    split
    · rename_i hu
      simp only [isHighSurrogate, Bool.and_eq_true, decide_eq_true_eq] at hu
      split <;> simp only [stripBOM] <;> rw [if_neg (by omega)]
    · split <;> simp only [stripBOM] <;> rw [if_neg (by omega)]

theorem decode_encode (s : JSString) :
    TextDecoder.decode (TextEncoder.encode s)
      = (stripBOM (toScalarValues s)).flatMap codePointToUnits := by
  unfold TextDecoder.decode TextEncoder.encode
  rw [utf8Decode_encode _ (toScalarValues_scalar s)]

theorem decode_encode_wellFormed (s : JSString) (hw : isWellFormed s = true)
    (hb : startsWithBOM s = false) : TextDecoder.decode (TextEncoder.encode s) = s := by
  rw [decode_encode, stripBOM_toScalarValues s hb, units_toScalarValues s hw]

/-! ## The key map and the service -/

theorem KeyMap.get_of_all (c : WebCrypto) (m : KeyMap)
    (h : m.all (fun e => decide (e.2 = EncryptionService.keyOf c e.1)) = true)
    (token : JSString) (key : Bytes) (hg : KeyMap.get m token = some key) :
    key = EncryptionService.keyOf c token := by
  induction m with
  | nil => simp [KeyMap.get] at hg
  | cons e m ih =>
    obtain ⟨k, v⟩ := e
    simp only [List.all_cons, Bool.and_eq_true, decide_eq_true_eq] at h
    simp only [KeyMap.get] at hg
    split at hg
    · rename_i hk
      simp only [Option.some.injEq] at hg
      rw [← hg, ← hk]; exact h.1
    · exact ih h.2 hg

namespace EncryptionService

theorem coherent_new (c : WebCrypto) : Coherent c EncryptionService.new = true := rfl

theorem coherent_delete (c : WebCrypto) (self : EncryptionService) (token : JSString)
    (h : Coherent c self = true) : Coherent c (clearRoomKey self token) = true := by
  simp only [Coherent, clearRoomKey, KeyMap.delete, List.all_eq_true, List.mem_filter] at h ⊢
  intro e he
  exact h e he.1

theorem deriveRoomKey_fst (c : WebCrypto) (self : EncryptionService) (token : JSString)
    (h : Coherent c self = true) : (deriveRoomKey c self token).1 = keyOf c token := by
  unfold deriveRoomKey
  split
  · rename_i key hk
    exact KeyMap.get_of_all c _ h token key hk
  · rfl

theorem coherent_deriveRoomKey (c : WebCrypto) (self : EncryptionService) (token : JSString)
    (h : Coherent c self = true) : Coherent c (deriveRoomKey c self token).2 = true := by
  unfold deriveRoomKey
  split
  · exact h
  · have hd := coherent_delete c self token h
    simp only [Coherent, clearRoomKey] at hd
    simp only [Coherent, KeyMap.set, List.all_cons, hd, decide_True, Bool.and_self]

theorem encrypt_snd (c : WebCrypto) (self : EncryptionService) (rng : Nat → Byte)
    (message token : JSString) :
    (encrypt c self rng message token).2 = (deriveRoomKey c self token).2 := by
  unfold encrypt
  simp only []
  split
  · rfl
  · split <;> rfl

theorem decrypt_snd (c : WebCrypto) (self : EncryptionService) (data token : JSString) :
    (decrypt c self data token).2 = (deriveRoomKey c self token).2 := by
  unfold decrypt
  simp only []
  split
  · rfl
  · split <;> rfl

theorem coherent_encrypt (c : WebCrypto) (self : EncryptionService) (rng : Nat → Byte)
    (message token : JSString) (h : Coherent c self = true) :
    Coherent c (encrypt c self rng message token).2 = true := by
  rw [encrypt_snd]; exact coherent_deriveRoomKey c self token h

theorem coherent_decrypt (c : WebCrypto) (self : EncryptionService) (data token : JSString)
    (h : Coherent c self = true) : Coherent c (decrypt c self data token).2 = true := by
  rw [decrypt_snd]; exact coherent_deriveRoomKey c self token h

theorem getRandomValues_length (rng : Nat → Byte) (n : Nat) :
    (getRandomValues rng n).length = n := by
  simp [getRandomValues]

/-- What `encrypt` returns: the base64 text of the nonce followed by the AES-GCM output,
unless AES-GCM fails or the two together are more than the engine takes as arguments. -/
theorem encrypt_fst (c : WebCrypto) (self : EncryptionService) (rng : Nat → Byte)
    (message token : JSString) :
    (encrypt c self rng message token).1 =
      (c.aesGcmEncrypt (deriveRoomKey c self token).1 (getRandomValues rng ivLength) tagLength
        (TextEncoder.encode message)).bind
        (fun ct =>
          if (getRandomValues rng ivLength ++ ct).length ≤ c.maxArguments then
            some (base64Encode (getRandomValues rng ivLength ++ ct))
          else none) := by
  unfold encrypt
  simp only []
  split
  · rename_i h; rw [h]; rfl
  · rename_i ct h
    rw [h]
    simp only [fromCharCode, Option.some_bind]
    by_cases hl : (getRandomValues rng ivLength ++ ct).length ≤ c.maxArguments
    · simp only [if_pos hl, btoa_binaryString]
    · simp only [if_neg hl]

/-- What `decrypt` does with a well-formed envelope: AES-GCM on the split at offset 12. -/
theorem decrypt_envelope (c : WebCrypto) (self : EncryptionService) (iv ct : Bytes)
    (token : JSString) (hiv : iv.length = ivLength) :
    (decrypt c self (base64Encode (iv ++ ct)) token).1 =
      (c.aesGcmDecrypt (deriveRoomKey c self token).1 iv tagLength ct).map TextDecoder.decode := by
  unfold decrypt
  simp only [atob_base64Encode, uint8ArrayFromCharCodes_binaryString]
  rw [← hiv, List.take_left, List.drop_left]
  split
  · rename_i h; rw [h]; rfl
  · rename_i d h; rw [h]; rfl

end EncryptionService

/-! ## Sample crypto: its laws -/

theorem toyCrypto_correct : toyCrypto.Correct := by
  intro key iv tagLength data
  refine ⟨data ++ List.replicate (tagLength / 8) 0, rfl, ?_⟩
  simp [toyCrypto]

theorem toyCrypto_tagAppended : toyCrypto.TagAppended := by
  intro key iv tagLength data ct h
  simp only [toyCrypto, Option.some.injEq] at h
  rw [← h]; simp

theorem keyFrame_unique (k₂ : Bytes) : ∀ (k₁ data : Bytes),
    keyFrame k₂ <+: keyFrame k₁ ++ data → k₁ = k₂ := by
  induction k₂ with
  | nil =>
    intro k₁ data h
    cases k₁ with
    | nil => rfl
    | cons b k₁ =>
      obtain ⟨t, ht⟩ := h
      simp [keyFrame] at ht
  | cons b k₂ ih =>
    intro k₁ data h
    cases k₁ with
    | nil =>
      obtain ⟨t, ht⟩ := h
      simp [keyFrame] at ht
    | cons b₁ k₁ =>
      obtain ⟨t, ht⟩ := h
      simp only [keyFrame, List.flatMap_cons, List.cons_append, List.nil_append,
        List.append_assoc, List.cons.injEq, true_and] at ht
      obtain ⟨hb, ht⟩ := ht
      have := ih k₁ data ⟨t, by simpa [keyFrame] using ht⟩
      rw [this, hb]

theorem sealedCrypto_correct : sealedCrypto.Correct := by
  intro key iv tagLength data
  refine ⟨keyFrame key ++ data, rfl, ?_⟩
  simp [sealedCrypto, List.isPrefixOf_iff_prefix]

theorem sealedCrypto_rejectsOtherKeys : sealedCrypto.RejectsOtherKeys := by
  intro k₁ k₂ iv tagLength data ct hne henc
  simp only [sealedCrypto, Option.some.injEq] at henc
  simp only [sealedCrypto]
  rw [if_neg]
  rw [ List.isPrefixOf_iff_prefix, ← henc]
  exact fun h => hne (keyFrame_unique k₂ k₁ data h)

/-! ## Encryption and decryption -/

theorem encrypt_some (c : WebCrypto) (self : EncryptionService) (rng : Nat → Byte)
    (P T E : JSString) (hE : (EncryptionService.encrypt c self rng P T).1 = some E) :
    ∃ ct, c.aesGcmEncrypt (EncryptionService.deriveRoomKey c self T).1
        (EncryptionService.getRandomValues rng EncryptionService.ivLength)
        EncryptionService.tagLength (TextEncoder.encode P) = some ct ∧
      (EncryptionService.getRandomValues rng EncryptionService.ivLength ++ ct).length
        ≤ c.maxArguments ∧
      E = base64Encode (EncryptionService.getRandomValues rng EncryptionService.ivLength ++ ct) := by
  rw [EncryptionService.encrypt_fst] at hE
  cases hct : c.aesGcmEncrypt (EncryptionService.deriveRoomKey c self T).1
      (EncryptionService.getRandomValues rng EncryptionService.ivLength)
      EncryptionService.tagLength (TextEncoder.encode P) with
  | none => rw [hct] at hE; simp at hE
  | some ct =>
    rw [hct, Option.some_bind] at hE
    by_cases hl : (EncryptionService.getRandomValues rng EncryptionService.ivLength ++ ct).length
        ≤ c.maxArguments
    · rw [if_pos hl] at hE
      exact ⟨ct, rfl, hl, (Option.some.inj hE).symm⟩
    · rw [if_neg hl] at hE
      cases hE

theorem encrypt_of_fits (c : WebCrypto) (self : EncryptionService) (rng : Nat → Byte)
    (P T : JSString) (ct : Bytes)
    (hct : c.aesGcmEncrypt (EncryptionService.deriveRoomKey c self T).1
        (EncryptionService.getRandomValues rng EncryptionService.ivLength)
        EncryptionService.tagLength (TextEncoder.encode P) = some ct)
    (hl : (EncryptionService.getRandomValues rng EncryptionService.ivLength ++ ct).length
        ≤ c.maxArguments) :
    (EncryptionService.encrypt c self rng P T).1
      = some (base64Encode
          (EncryptionService.getRandomValues rng EncryptionService.ivLength ++ ct)) := by
  rw [EncryptionService.encrypt_fst, hct, Option.some_bind, if_pos hl]

theorem combined_length (c : WebCrypto) (ht : c.TagAppended) (key : Bytes) (rng : Nat → Byte)
    (data ct : Bytes)
    (hct : c.aesGcmEncrypt key
        (EncryptionService.getRandomValues rng EncryptionService.ivLength)
        EncryptionService.tagLength data = some ct) :
    (EncryptionService.getRandomValues rng EncryptionService.ivLength ++ ct).length
      = data.length + 28 := by
  have h1 := ht _ _ _ _ _ hct
  rw [List.length_append, EncryptionService.getRandomValues_length, h1]
  simp only [EncryptionService.ivLength, EncryptionService.tagLength]
  omega

theorem encrypt_none_of_long (c : WebCrypto) (ht : c.TagAppended) (self : EncryptionService)
    (rng : Nat → Byte) (P T : JSString)
    (h : c.maxArguments < (TextEncoder.encode P).length + 28) :
    (EncryptionService.encrypt c self rng P T).1 = none := by
  cases hE : (EncryptionService.encrypt c self rng P T).1 with
  | none => rfl
  | some E =>
    obtain ⟨ct, hct, hl, _⟩ := encrypt_some c self rng P T E hE
    rw [combined_length c ht _ rng _ ct hct] at hl
    omega

namespace EncryptionService

/-- An envelope made on one instance and read on another, for any plaintext that the
engine's argument limit lets through: the reader gets the plaintext as `TextDecoder` gives
back what `TextEncoder` made of it. -/
theorem decrypt_encrypt (c : WebCrypto) (hc : c.Correct) (ht : c.TagAppended)
    (a b : EncryptionService) (ha : Coherent c a = true) (hb : Coherent c b = true)
    (rng : Nat → Byte) (P T : JSString)
    (hlim : (TextEncoder.encode P).length + 28 ≤ c.maxArguments) :
    ∃ E, (encrypt c a rng P T).1 = some E ∧
      (decrypt c b E T).1 = some (TextDecoder.decode (TextEncoder.encode P)) := by
  obtain ⟨ct, he, hd⟩ := hc (keyOf c T) (getRandomValues rng ivLength) tagLength
    (TextEncoder.encode P)
  refine ⟨base64Encode (getRandomValues rng ivLength ++ ct), ?_, ?_⟩
  · have he' := he
    rw [← deriveRoomKey_fst c a T ha] at he'
    refine encrypt_of_fits c a rng P T ct he' ?_
    rw [combined_length c ht _ rng _ ct he]
    exact hlim
  · rw [decrypt_envelope c b _ ct T (getRandomValues_length rng ivLength),
      deriveRoomKey_fst c b T hb, hd]; rfl

end EncryptionService

theorem cappedCrypto_correct : cappedCrypto.Correct := toyCrypto_correct

theorem cappedCrypto_tagAppended : cappedCrypto.TagAppended := toyCrypto_tagAppended

/-! ## The token pattern -/

theorem matchesClass_token (u : CodeUnit) :
    matchesClass [(97, 102), (48, 57)] u = isLowerHex u := by
  simp only [matchesClass, isLowerHex, List.any_cons, List.any_nil, Bool.or_false]
  exact Bool.or_comm _ _

theorem matchRepeat_eq_some_nil (ranges : List (Nat × Nat)) (n : Nat) (s : JSString) :
    matchRepeat ranges n s = some [] ↔
      s.length = n ∧ ∀ u ∈ s, matchesClass ranges u = true := by
  induction n generalizing s with
  | zero =>
    cases s with
    | nil => simp [matchRepeat]
    | cons u rest => simp [matchRepeat]
  | succ n ih =>
    cases s with
    | nil => simp [matchRepeat]
    | cons u rest =>
      simp only [matchRepeat, List.length_cons, Nat.add_right_cancel_iff, List.mem_cons,
        forall_eq_or_imp]
      by_cases hu : matchesClass ranges u = true
      · rw [if_pos hu, ih]; simp [hu]
      · rw [if_neg hu]; simp [hu]

theorem searchFrom_token_false (s : JSString) : searchFrom tokenPattern false s = false := by
  induction s with
  | nil => rfl
  | cons u rest ih => simp only [searchFrom, ih, Bool.or_false]; rfl

theorem matchTerms_token (s : JSString) :
    matchTerms tokenPattern true s = true ↔
      matchRepeat [(97, 102), (48, 57)] 64 s = some [] := by
  simp only [tokenPattern, matchTerms, Bool.true_and]
  split
  · rename_i h; simp [h]
  · rename_i rest h
    rw [h]
    cases rest with
    | nil => simp [matchTerms]
    | cons v r => simp [matchTerms]

theorem isValidToken_iff_aux (s : JSString) :
    isValidToken s = true ↔ s.length = 64 ∧ ∀ u ∈ s, isLowerHex u = true := by
  have key : isValidToken s = matchTerms tokenPattern true s := by
    unfold isValidToken regExpTest
    cases s with
    | nil => rfl
    | cons u rest => simp only [searchFrom, searchFrom_token_false, Bool.or_false]
  rw [key, matchTerms_token, matchRepeat_eq_some_nil]
  simp only [matchesClass_token]

theorem isWellFormed_of_no_surrogate (s : JSString)
    (h : ∀ u ∈ s, isHighSurrogate u = false ∧ isLowSurrogate u = false) :
    isWellFormed s = true := by
  induction s using isWellFormed.induct with
  | case1 => rfl
  | case2 u => simp [isWellFormed, h u (by simp)]
  | case3 u v rest hu ih => simp [(h u (by simp)).1] at hu
  | case4 u v rest hu ih =>
    rw [isWellFormed, if_neg hu, ih (fun w hw => h w (List.mem_cons_of_mem _ hw))]
    simp [(h u (by simp)).2]

theorem isWellFormed_of_valid (s : JSString) (h : isValidToken s = true) :
    isWellFormed s = true := by
  apply isWellFormed_of_no_surrogate
  intro u hu
  have hx := ((isValidToken_iff_aux s).1 h).2 u hu
  simp only [isLowerHex, Bool.or_eq_true, Bool.and_eq_true, decide_eq_true_eq] at hx
  constructor
  · cases hh : isHighSurrogate u
    · rfl
    · rw [isHighSurrogate_iff] at hh; omega
  · cases hh : isLowSurrogate u
    · rfl
    · rw [isLowSurrogate_iff] at hh; omega

theorem encode_injective (s t : JSString) (hs : isWellFormed s = true)
    (ht : isWellFormed t = true) (h : TextEncoder.encode s = TextEncoder.encode t) : s = t := by
  have h1 := utf8Decode_encode _ (toScalarValues_scalar s)
  have h2 := utf8Decode_encode _ (toScalarValues_scalar t)
  unfold TextEncoder.encode at h
  rw [h, h2] at h1
  rw [← units_toScalarValues s hs, ← units_toScalarValues t ht, h1]

/-! ## Claims about EncryptionService -/

theorem KeyMap.get_delete_self (m : KeyMap) (token : JSString) :
    KeyMap.get (KeyMap.delete m token) token = none := by
  induction m with
  | nil => rfl
  | cons e m ih =>
    obtain ⟨k, v⟩ := e
    by_cases hk : k = token
    · simpa [KeyMap.delete, hk] using ih
    · have : KeyMap.delete ((k, v) :: m) token = (k, v) :: KeyMap.delete m token := by
        simp [KeyMap.delete, hk]
      rw [this, KeyMap.get, if_neg hk, ih]

/-- C1 (counterexample): with the token `tokenA` and a nonce of zero bytes, `encrypt` of the
plaintext U+FEFF "hi" gives an envelope that `decrypt` turns into "hi": the leading U+FEFF
is lost, so the round trip does not return the plaintext. -/
theorem roundTrip_loses_leading_BOM :
    isValidToken tokenA = true ∧
    (EncryptionService.encrypt toyCrypto EncryptionService.new zeroRng (0xFEFF :: js "hi")
      tokenA).1 = some (js "AAAAAAAAAAAAAAAA77u/aGkAAAAAAAAAAAAAAAAAAAAA") ∧
    (EncryptionService.decrypt toyCrypto
      (EncryptionService.encrypt toyCrypto EncryptionService.new zeroRng (0xFEFF :: js "hi")
        tokenA).2
      (js "AAAAAAAAAAAAAAAA77u/aGkAAAAAAAAAAAAAAAAAAAAA") tokenA).1 = some (js "hi") ∧
    js "hi" ≠ 0xFEFF :: js "hi" := by
  decide

/-- C1 (amended): for every plaintext and every room token, on an instance whose cached
keys are the derived ones.  When the UTF-8 bytes of the plaintext plus 28 (nonce and tag)
are no more than the arguments the engine accepts in one call, `encrypt` returns an
envelope, and `decrypt` of that envelope with the same token returns the plaintext with
every unpaired surrogate replaced by U+FFFD and one leading U+FEFF removed: exactly the
plaintext when it has no unpaired surrogate and no leading U+FEFF (the empty string and
non-ASCII text included).  When they are more, `String.fromCharCode(...combined)` throws
and `encrypt` returns `null`. -/
theorem roundTrip (c : WebCrypto) (hc : c.Correct) (ht : c.TagAppended)
    (self : EncryptionService) (hs : EncryptionService.Coherent c self = true)
    (rng : Nat → Byte) (P T : JSString) :
    ((TextEncoder.encode P).length + 28 ≤ c.maxArguments →
      ∃ E, (EncryptionService.encrypt c self rng P T).1 = some E ∧
        (EncryptionService.decrypt c (EncryptionService.encrypt c self rng P T).2 E T).1
          = some ((stripBOM (toScalarValues P)).flatMap codePointToUnits) ∧
        (isWellFormed P = true → startsWithBOM P = false →
          (EncryptionService.decrypt c (EncryptionService.encrypt c self rng P T).2 E T).1
            = some P)) ∧
    (c.maxArguments < (TextEncoder.encode P).length + 28 →
      (EncryptionService.encrypt c self rng P T).1 = none) := by
  constructor
  · intro hlim
    obtain ⟨E, h1, h2⟩ := EncryptionService.decrypt_encrypt c hc ht self
      (EncryptionService.encrypt c self rng P T).2 hs
      (EncryptionService.coherent_encrypt c self rng P T hs) rng P T hlim
    refine ⟨E, h1, ?_, ?_⟩
    · rw [h2, decode_encode]
    · intro hw hb
      rw [h2, decode_encode_wellFormed P hw hb]
  · exact encrypt_none_of_long c ht self rng P T

/-- C1 (witness): the round trip of the text "héllo, wörld €" under `tokenA`; on an engine
that accepts 30 arguments `encrypt` of "hello" returns `null`. -/
theorem roundTrip_witness :
    (∃ E, (EncryptionService.encrypt toyCrypto EncryptionService.new zeroRng
        (js "héllo, wörld €") tokenA).1 = some E ∧
      (EncryptionService.decrypt toyCrypto
        (EncryptionService.encrypt toyCrypto EncryptionService.new zeroRng
          (js "héllo, wörld €") tokenA).2 E tokenA).1
        = some ((stripBOM (toScalarValues (js "héllo, wörld €"))).flatMap codePointToUnits) ∧
      (isWellFormed (js "héllo, wörld €") = true → startsWithBOM (js "héllo, wörld €") = false →
        (EncryptionService.decrypt toyCrypto
          (EncryptionService.encrypt toyCrypto EncryptionService.new zeroRng
            (js "héllo, wörld €") tokenA).2 E tokenA).1 = some (js "héllo, wörld €"))) ∧
    (EncryptionService.encrypt cappedCrypto EncryptionService.new zeroRng (js "hello")
      tokenA).1 = none :=
  ⟨(roundTrip toyCrypto toyCrypto_correct toyCrypto_tagAppended EncryptionService.new
      (by decide) zeroRng (js "héllo, wörld €") tokenA).1 (by decide),
   (roundTrip cappedCrypto cappedCrypto_correct cappedCrypto_tagAppended EncryptionService.new
      (by decide) zeroRng (js "hello") tokenA).2 (by decide)⟩

set_option maxRecDepth 4000 in
/-- C2 (counterexample): the tokens U+D800 and U+D801 are different strings with the same
UTF-8 encoding, so they have the same key: an envelope that `encrypt` makes of "hi" under
the first is decrypted to "hi" under the second, even with a cipher that rejects every
other key.  With the tokens `tokenA` and `tokenB` and a cipher whose tag does not depend
on the key, `decrypt` under `tokenB` returns "hi" as well. -/
theorem other_token_decrypts :
    ([0xD800] : JSString) ≠ [0xD801] ∧
    (EncryptionService.encrypt sealedCrypto EncryptionService.new zeroRng (js "hi")
      [0xD800]).1 = some (js "AAAAAAAAAAAAAAAAAe8BvwG9AXcBaQFzAWgBcAFlAXIBbgFlAXQBLQFyAW8BbwFtAS0BcwFhAWwBdAFyAW8BbwFtAS0BZQFuAWMBcgF5AXABdAFpAW8BbgBoaQ==") ∧
    (EncryptionService.decrypt sealedCrypto
      (EncryptionService.encrypt sealedCrypto EncryptionService.new zeroRng (js "hi")
        [0xD800]).2
      (js "AAAAAAAAAAAAAAAAAe8BvwG9AXcBaQFzAWgBcAFlAXIBbgFlAXQBLQFyAW8BbwFtAS0BcwFhAWwBdAFyAW8BbwFtAS0BZQFuAWMBcgF5AXABdAFpAW8BbgBoaQ==") [0xD801]).1 = some (js "hi") ∧
    tokenA ≠ tokenB ∧
    (EncryptionService.encrypt toyCrypto EncryptionService.new zeroRng (js "hi") tokenA).1
      = some (js "AAAAAAAAAAAAAAAAaGkAAAAAAAAAAAAAAAAAAAAA") ∧
    (EncryptionService.decrypt toyCrypto
      (EncryptionService.encrypt toyCrypto EncryptionService.new zeroRng (js "hi") tokenA).2
      (js "AAAAAAAAAAAAAAAAaGkAAAAAAAAAAAAAAAAAAAAA") tokenB).1 = some (js "hi") := by
  decide

theorem hexDigit_lowerHex : ∀ d : Fin 16, isLowerHex (hexDigit d) = true := by decide

theorem hexDigit_injective : ∀ a b : Fin 16, hexDigit a = hexDigit b → a = b := by decide

theorem hexToken_valid (digits : Fin 64 → Fin 16) : isValidToken (hexToken digits) = true := by
  rw [isValidToken_iff_aux]
  refine ⟨by simp [hexToken], ?_⟩
  intro u hu
  simp only [hexToken, List.mem_ofFn, Set.mem_range] at hu
  obtain ⟨i, rfl⟩ := hu
  exact hexDigit_lowerHex _

theorem hexToken_injective (f g : Fin 64 → Fin 16) (h : hexToken f = hexToken g) : f = g := by
  have := List.ofFn_injective h
  funext i
  exact hexDigit_injective _ _ (congrFun this i)

/-- With any AES-GCM whose decryption inverts encryption and whose tag has 16 bytes, two
different tokens of the valid shape exist such that an envelope made under the first is
decrypted under the second: there are more tokens than tags. -/
theorem valid_tokens_collide (c : WebCrypto) (hc : c.Correct) (ht : c.TagAppended)
    (hlim : 28 ≤ c.maxArguments) (rng : Nat → Byte) :
    ∃ T₁ T₂ E, isValidToken T₁ = true ∧ isValidToken T₂ = true ∧ T₁ ≠ T₂ ∧
      (EncryptionService.encrypt c EncryptionService.new rng [] T₁).1 = some E ∧
      (EncryptionService.decrypt c EncryptionService.new E T₂).1 = some [] := by
  have hex : ∀ f : Fin 64 → Fin 16, ∃ ct : Bytes,
      c.aesGcmEncrypt (EncryptionService.keyOf c (hexToken f))
        (EncryptionService.getRandomValues rng EncryptionService.ivLength)
        EncryptionService.tagLength [] = some ct ∧
      c.aesGcmDecrypt (EncryptionService.keyOf c (hexToken f))
        (EncryptionService.getRandomValues rng EncryptionService.ivLength)
        EncryptionService.tagLength ct = some [] := fun f => hc _ _ _ _
  have hlen : ∀ f, (Classical.choose (hex f)).length = 16 := by
    intro f
    have := ht _ _ _ _ _ (Classical.choose_spec (hex f)).1
    simpa [EncryptionService.tagLength] using this
  let tag : (Fin 64 → Fin 16) → Mathlib.Vector Byte 16 :=
    fun f => ⟨Classical.choose (hex f), hlen f⟩
  have hcard : Fintype.card (Mathlib.Vector Byte 16) < Fintype.card (Fin 64 → Fin 16) := by
    rw [card_vector, Fintype.card_fun, Fintype.card_fin, Fintype.card_fin, Fintype.card_fin]
    norm_num
  obtain ⟨f, g, hfg, htag⟩ := Fintype.exists_ne_map_eq_of_card_lt tag hcard
  have hct : Classical.choose (hex f) = Classical.choose (hex g) :=
    congrArg Subtype.val htag
  have henc := (Classical.choose_spec (hex f)).1
  have hdec := (Classical.choose_spec (hex g)).2
  have hnew := EncryptionService.coherent_new c
  refine ⟨hexToken f, hexToken g,
    base64Encode (EncryptionService.getRandomValues rng EncryptionService.ivLength ++
      Classical.choose (hex f)),
    hexToken_valid f, hexToken_valid g, fun h => hfg (hexToken_injective f g h), ?_, ?_⟩
  · have henc' : c.aesGcmEncrypt
        (EncryptionService.deriveRoomKey c EncryptionService.new (hexToken f)).1
        (EncryptionService.getRandomValues rng EncryptionService.ivLength)
        EncryptionService.tagLength (TextEncoder.encode []) = some (Classical.choose (hex f)) := by
      rw [EncryptionService.deriveRoomKey_fst c EncryptionService.new (hexToken f) hnew]
      exact henc
    refine encrypt_of_fits c EncryptionService.new rng [] (hexToken f) _ henc' ?_
    rw [combined_length c ht _ rng _ _ henc]
    simpa [TextEncoder.encode, toScalarValues] using hlim
  · rw [EncryptionService.decrypt_envelope c EncryptionService.new _ _ (hexToken g)
        (EncryptionService.getRandomValues_length rng EncryptionService.ivLength),
      EncryptionService.deriveRoomKey_fst c EncryptionService.new (hexToken g) hnew, hct, hdec]
    rfl

/-- C2 (amended): for every plaintext and every two room tokens, `decrypt` of an envelope
that `encrypt` made under the first token, called with the second token, never throws: it
runs AES-GCM decryption on the ciphertext of the envelope, with the nonce of the envelope,
under the key that HKDF derives from the second token alone (a cached key of the first
token is not used), on the same instance as on any other, and it returns `null` exactly
when AES-GCM rejects, the decoded text otherwise.  Two different tokens of the valid shape
have different UTF-8 encodings, so their keys come from different key material. -/
theorem crossRoom_decrypt_by_authentication (c : WebCrypto) (a b : EncryptionService)
    (ha : EncryptionService.Coherent c a = true) (hb : EncryptionService.Coherent c b = true)
    (rng : Nat → Byte) (P T₁ T₂ E : JSString)
    (hE : (EncryptionService.encrypt c a rng P T₁).1 = some E) :
    ∃ ct, c.aesGcmEncrypt (EncryptionService.keyOf c T₁)
        (EncryptionService.getRandomValues rng 12) 128 (TextEncoder.encode P) = some ct ∧
      (EncryptionService.decrypt c b E T₂).1
        = (c.aesGcmDecrypt
            (c.hkdf (TextEncoder.encode T₂) (TextEncoder.encode (js "wishpernet-room-salt"))
              (TextEncoder.encode (js "room-encryption")) 256)
            (EncryptionService.getRandomValues rng 12) 128 ct).map TextDecoder.decode ∧
      (EncryptionService.decrypt c (EncryptionService.encrypt c a rng P T₁).2 E T₂).1
        = (EncryptionService.decrypt c b E T₂).1 ∧
      ((EncryptionService.decrypt c b E T₂).1 = none ↔
        c.aesGcmDecrypt (EncryptionService.keyOf c T₂)
          (EncryptionService.getRandomValues rng 12) 128 ct = none) ∧
      (isValidToken T₁ = true → isValidToken T₂ = true → T₁ ≠ T₂ →
        TextEncoder.encode T₁ ≠ TextEncoder.encode T₂) := by
  obtain ⟨ct, hct, _, hEq⟩ := encrypt_some c a rng P T₁ E hE
  rw [EncryptionService.deriveRoomKey_fst c a T₁ ha] at hct
  have hlen := EncryptionService.getRandomValues_length rng EncryptionService.ivLength
  have hall : ∀ s : EncryptionService, EncryptionService.Coherent c s = true →
      (EncryptionService.decrypt c s E T₂).1
        = (c.aesGcmDecrypt (EncryptionService.keyOf c T₂)
            (EncryptionService.getRandomValues rng 12) 128 ct).map TextDecoder.decode := by
    intro s hs
    rw [hEq, EncryptionService.decrypt_envelope c s _ ct T₂ hlen,
      EncryptionService.deriveRoomKey_fst c s T₂ hs]
    rfl
  refine ⟨ct, hct, hall b hb, ?_, ?_, ?_⟩
  · rw [hall b hb, hall _ (EncryptionService.coherent_encrypt c a rng P T₁ ha)]
  · rw [hall b hb]
    exact Option.map_eq_none'
  · intro h₁ h₂ hne h
    exact hne (encode_injective T₁ T₂ (isWellFormed_of_valid T₁ h₁)
      (isWellFormed_of_valid T₂ h₂) h)

set_option maxRecDepth 8000 in
/-- C2 (witness): "hello" encrypted under `tokenA` and read under `tokenB` by an instance
that holds the key of `tokenA`. -/
theorem crossRoom_decrypt_by_authentication_witness :
    ∃ ct, sealedCrypto.aesGcmEncrypt (EncryptionService.keyOf sealedCrypto tokenA)
        (EncryptionService.getRandomValues zeroRng 12) 128 (TextEncoder.encode (js "hello"))
          = some ct ∧
      (EncryptionService.decrypt sealedCrypto
          (EncryptionService.deriveRoomKey sealedCrypto EncryptionService.new tokenA).2
          (base64Encode (EncryptionService.getRandomValues zeroRng 12 ++
            (keyFrame (EncryptionService.keyOf sealedCrypto tokenA) ++
              TextEncoder.encode (js "hello")))) tokenB).1
        = (sealedCrypto.aesGcmDecrypt
            (sealedCrypto.hkdf (TextEncoder.encode tokenB)
              (TextEncoder.encode (js "wishpernet-room-salt"))
              (TextEncoder.encode (js "room-encryption")) 256)
            (EncryptionService.getRandomValues zeroRng 12) 128 ct).map TextDecoder.decode ∧
      (EncryptionService.decrypt sealedCrypto
          (EncryptionService.encrypt sealedCrypto EncryptionService.new zeroRng (js "hello")
            tokenA).2
          (base64Encode (EncryptionService.getRandomValues zeroRng 12 ++
            (keyFrame (EncryptionService.keyOf sealedCrypto tokenA) ++
              TextEncoder.encode (js "hello")))) tokenB).1
        = (EncryptionService.decrypt sealedCrypto
            (EncryptionService.deriveRoomKey sealedCrypto EncryptionService.new tokenA).2
            (base64Encode (EncryptionService.getRandomValues zeroRng 12 ++
              (keyFrame (EncryptionService.keyOf sealedCrypto tokenA) ++
                TextEncoder.encode (js "hello")))) tokenB).1 ∧
      ((EncryptionService.decrypt sealedCrypto
          (EncryptionService.deriveRoomKey sealedCrypto EncryptionService.new tokenA).2
          (base64Encode (EncryptionService.getRandomValues zeroRng 12 ++
            (keyFrame (EncryptionService.keyOf sealedCrypto tokenA) ++
              TextEncoder.encode (js "hello")))) tokenB).1 = none ↔
        sealedCrypto.aesGcmDecrypt (EncryptionService.keyOf sealedCrypto tokenB)
          (EncryptionService.getRandomValues zeroRng 12) 128 ct = none) ∧
      (isValidToken tokenA = true → isValidToken tokenB = true → tokenA ≠ tokenB →
        TextEncoder.encode tokenA ≠ TextEncoder.encode tokenB) :=
  crossRoom_decrypt_by_authentication sealedCrypto EncryptionService.new
    (EncryptionService.deriveRoomKey sealedCrypto EncryptionService.new tokenA).2
    (EncryptionService.coherent_new sealedCrypto)
    (EncryptionService.coherent_deriveRoomKey sealedCrypto EncryptionService.new tokenA
      (EncryptionService.coherent_new sealedCrypto))
    zeroRng (js "hello") tokenA tokenB _
    (encrypt_of_fits sealedCrypto EncryptionService.new zeroRng (js "hello") tokenA
      (keyFrame (EncryptionService.keyOf sealedCrypto tokenA) ++ TextEncoder.encode (js "hello"))
      rfl (by decide))

/-- C3 (counterexample): client A encrypts the one-unit string U+D83D (an unpaired
surrogate) under `tokenA`; client B, another instance, decrypts the envelope with the same
token and gets U+FFFD, not the plaintext. -/
theorem otherClient_gets_replacement_char :
    (EncryptionService.encrypt toyCrypto EncryptionService.new zeroRng [0xD83D] tokenA).1
      = some (js "AAAAAAAAAAAAAAAA77+9AAAAAAAAAAAAAAAAAAAAAA==") ∧
    (EncryptionService.decrypt toyCrypto EncryptionService.new
      (js "AAAAAAAAAAAAAAAA77+9AAAAAAAAAAAAAAAAAAAAAA==") tokenA).1 = some [0xFFFD] ∧
    ([0xFFFD] : JSString) ≠ [0xD83D] := by
  decide

/-- C3 (amended): the key every instance derives for a token is HKDF of the UTF-8 bytes of
the token with the fixed salt and info, also after `clearRoomKey` has removed the cached
entry; an envelope that `encrypt` makes on one instance from a plaintext without unpaired
surrogate and without leading U+FEFF, short enough for the engine's argument limit, is
decrypted to that plaintext by any other instance, and by the same instance after
`clearRoomKey`. -/
theorem key_depends_on_token_only (c : WebCrypto) (hc : c.Correct) (ht : c.TagAppended)
    (a b : EncryptionService)
    (ha : EncryptionService.Coherent c a = true) (hb : EncryptionService.Coherent c b = true)
    (rng : Nat → Byte) (P T : JSString) (hw : isWellFormed P = true)
    (hbom : startsWithBOM P = false)
    (hlim : (TextEncoder.encode P).length + 28 ≤ c.maxArguments) :
    (EncryptionService.deriveRoomKey c a T).1
        = c.hkdf (TextEncoder.encode T) (TextEncoder.encode (js "wishpernet-room-salt"))
            (TextEncoder.encode (js "room-encryption")) 256 ∧
    (EncryptionService.deriveRoomKey c b T).1 = (EncryptionService.deriveRoomKey c a T).1 ∧
    (EncryptionService.clearRoomKey a T).roomKeys.get T = none ∧
    (EncryptionService.deriveRoomKey c (EncryptionService.clearRoomKey a T) T).1
        = (EncryptionService.deriveRoomKey c a T).1 ∧
    ∃ E, (EncryptionService.encrypt c a rng P T).1 = some E ∧
      (EncryptionService.decrypt c b E T).1 = some P ∧
      (EncryptionService.decrypt c
        (EncryptionService.clearRoomKey (EncryptionService.encrypt c a rng P T).2 T) E T).1
          = some P := by
  have hca := EncryptionService.coherent_delete c a T ha
  refine ⟨EncryptionService.deriveRoomKey_fst c a T ha, ?_, KeyMap.get_delete_self _ _, ?_, ?_⟩
  · rw [EncryptionService.deriveRoomKey_fst c a T ha, EncryptionService.deriveRoomKey_fst c b T hb]
  · rw [EncryptionService.deriveRoomKey_fst c a T ha, EncryptionService.deriveRoomKey_fst c _ T hca]
  · obtain ⟨E, h1, h2⟩ := EncryptionService.decrypt_encrypt c hc ht a b ha hb rng P T hlim
    obtain ⟨E', h1', h2'⟩ := EncryptionService.decrypt_encrypt c hc ht a
      (EncryptionService.clearRoomKey (EncryptionService.encrypt c a rng P T).2 T) ha
      (EncryptionService.coherent_delete c _ T
        (EncryptionService.coherent_encrypt c a rng P T ha)) rng P T hlim
    have : E' = E := by rw [h1] at h1'; exact (Option.some.inj h1').symm
    rw [this] at h2'
    rw [decode_encode_wellFormed P hw hbom] at h2 h2'
    exact ⟨E, h1, h2, h2'⟩

/-- C3 (witness): one instance that holds the key of `tokenA` in its map, one new instance,
and the text "hello". -/
theorem key_depends_on_token_only_witness :
    (EncryptionService.deriveRoomKey toyCrypto
        (EncryptionService.deriveRoomKey toyCrypto EncryptionService.new tokenA).2 tokenA).1
        = toyCrypto.hkdf (TextEncoder.encode tokenA)
            (TextEncoder.encode (js "wishpernet-room-salt"))
            (TextEncoder.encode (js "room-encryption")) 256 ∧
    (EncryptionService.deriveRoomKey toyCrypto EncryptionService.new tokenA).1
        = (EncryptionService.deriveRoomKey toyCrypto
            (EncryptionService.deriveRoomKey toyCrypto EncryptionService.new tokenA).2 tokenA).1 ∧
    (EncryptionService.clearRoomKey
        (EncryptionService.deriveRoomKey toyCrypto EncryptionService.new tokenA).2
        tokenA).roomKeys.get tokenA = none ∧
    (EncryptionService.deriveRoomKey toyCrypto
        (EncryptionService.clearRoomKey
          (EncryptionService.deriveRoomKey toyCrypto EncryptionService.new tokenA).2 tokenA)
        tokenA).1
        = (EncryptionService.deriveRoomKey toyCrypto
            (EncryptionService.deriveRoomKey toyCrypto EncryptionService.new tokenA).2 tokenA).1 ∧
    ∃ E, (EncryptionService.encrypt toyCrypto
        (EncryptionService.deriveRoomKey toyCrypto EncryptionService.new tokenA).2 zeroRng
        (js "hello") tokenA).1 = some E ∧
      (EncryptionService.decrypt toyCrypto EncryptionService.new E tokenA).1
        = some (js "hello") ∧
      (EncryptionService.decrypt toyCrypto
        (EncryptionService.clearRoomKey
          (EncryptionService.encrypt toyCrypto
            (EncryptionService.deriveRoomKey toyCrypto EncryptionService.new tokenA).2 zeroRng
            (js "hello") tokenA).2 tokenA) E tokenA).1 = some (js "hello") :=
  key_depends_on_token_only toyCrypto toyCrypto_correct toyCrypto_tagAppended
    (EncryptionService.deriveRoomKey toyCrypto EncryptionService.new tokenA).2
    EncryptionService.new
    (EncryptionService.coherent_deriveRoomKey toyCrypto EncryptionService.new tokenA
      (EncryptionService.coherent_new toyCrypto))
    (EncryptionService.coherent_new toyCrypto) zeroRng (js "hello") tokenA (by decide)
    (by decide) (by decide)

/-- C4: the token test of `initLogin`, the pattern `^[a-f0-9]{64}$`, accepts a string if and
only if it has exactly 64 code units and each is one of `0-9`, `a-f`; it rejects the empty
string, a valid token followed by a newline, uppercase hex digits and a non-hex letter. -/
theorem isValidToken_iff (s : JSString) :
    (isValidToken s = true ↔ s.length = 64 ∧ ∀ u ∈ s, isLowerHex u = true) ∧
    isValidToken [] = false ∧
    isValidToken (tokenA ++ js "\n") = false ∧
    isValidToken (List.replicate 64 (toUint16 65)) = false ∧
    isValidToken (List.replicate 63 (toUint16 97) ++ js "g") = false :=
  ⟨isValidToken_iff_aux s, by decide, by decide, by decide, by decide⟩

/-- C9: when `encrypt` returns an envelope, its base64 decoding is the 12-byte nonce drawn
for the call followed by the AES-GCM output, `12 + len(UTF-8(P)) + 16` bytes in all;
`decrypt` of the envelope, on any instance and with any token, hands AES-GCM the first 12
bytes as nonce and all the rest as ciphertext, with no length field; two encryptions that
draw different nonces return different envelopes. -/
theorem envelope_format (c : WebCrypto) (ht : c.TagAppended) (self : EncryptionService)
    (rng : Nat → Byte) (P T E : JSString)
    (hE : (EncryptionService.encrypt c self rng P T).1 = some E) :
    ∃ ct, c.aesGcmEncrypt (EncryptionService.deriveRoomKey c self T).1
        (EncryptionService.getRandomValues rng 12) 128 (TextEncoder.encode P) = some ct ∧
      forgivingBase64Decode E = some (EncryptionService.getRandomValues rng 12 ++ ct) ∧
      (EncryptionService.getRandomValues rng 12 ++ ct).length
        = 12 + (TextEncoder.encode P).length + 16 ∧
      (EncryptionService.getRandomValues rng 12).length = 12 ∧
      (∀ (reader : EncryptionService) (T' : JSString),
        (EncryptionService.decrypt c reader E T').1
          = (c.aesGcmDecrypt (EncryptionService.deriveRoomKey c reader T').1
              (EncryptionService.getRandomValues rng 12) 128 ct).map TextDecoder.decode) ∧
      ∀ (self' : EncryptionService) (rng' : Nat → Byte) (P' T' E' : JSString),
        (EncryptionService.encrypt c self' rng' P' T').1 = some E' →
        EncryptionService.getRandomValues rng 12 ≠ EncryptionService.getRandomValues rng' 12 →
        E ≠ E' := by
  obtain ⟨ct, hct, _, hEq⟩ := encrypt_some c self rng P T E hE
  have hlen := EncryptionService.getRandomValues_length rng 12
  refine ⟨ct, hct, ?_, ?_, hlen, ?_, ?_⟩
  · rw [hEq]; exact forgivingBase64Decode_encode _
  · have hcl := combined_length c ht _ rng _ ct hct
    simp only [EncryptionService.ivLength] at hcl
    rw [hcl]; omega
  · intro reader T'
    rw [hEq]
    exact EncryptionService.decrypt_envelope c reader
      (EncryptionService.getRandomValues rng 12) ct T' hlen
  · intro self' rng' P' T' E' hE' hne heq
    obtain ⟨ct', _, _, hEq'⟩ := encrypt_some c self' rng' P' T' E' hE'
    have hlen' := EncryptionService.getRandomValues_length rng' 12
    have hd : forgivingBase64Decode E = forgivingBase64Decode E' := by rw [heq]
    rw [hEq, hEq', forgivingBase64Decode_encode, forgivingBase64Decode_encode] at hd
    have := congrArg (List.take 12) (Option.some.inj hd)
    have e1 : (EncryptionService.getRandomValues rng EncryptionService.ivLength ++ ct).take 12
        = EncryptionService.getRandomValues rng 12 := by
      rw [← hlen]; exact List.take_left _ _
    have e2 : (EncryptionService.getRandomValues rng' EncryptionService.ivLength ++ ct').take 12
        = EncryptionService.getRandomValues rng' 12 := by
      rw [← hlen']; exact List.take_left _ _
    rw [e1, e2] at this
    exact hne this

/-- C9 (witness): the envelope of "hello" under `tokenA` with a nonce of zero bytes. -/
theorem envelope_format_witness :
    ∃ ct, toyCrypto.aesGcmEncrypt
        (EncryptionService.deriveRoomKey toyCrypto EncryptionService.new tokenA).1
        (EncryptionService.getRandomValues zeroRng 12) 128 (TextEncoder.encode (js "hello"))
          = some ct ∧
      forgivingBase64Decode (js "AAAAAAAAAAAAAAAAaGVsbG8AAAAAAAAAAAAAAAAAAAAA")
        = some (EncryptionService.getRandomValues zeroRng 12 ++ ct) ∧
      (EncryptionService.getRandomValues zeroRng 12 ++ ct).length
        = 12 + (TextEncoder.encode (js "hello")).length + 16 ∧
      (EncryptionService.getRandomValues zeroRng 12).length = 12 ∧
      (∀ (reader : EncryptionService) (T' : JSString),
        (EncryptionService.decrypt toyCrypto reader
            (js "AAAAAAAAAAAAAAAAaGVsbG8AAAAAAAAAAAAAAAAAAAAA") T').1
          = (toyCrypto.aesGcmDecrypt (EncryptionService.deriveRoomKey toyCrypto reader T').1
              (EncryptionService.getRandomValues zeroRng 12) 128 ct).map TextDecoder.decode) ∧
      ∀ (self' : EncryptionService) (rng' : Nat → Byte) (P' T' E' : JSString),
        (EncryptionService.encrypt toyCrypto self' rng' P' T').1 = some E' →
        EncryptionService.getRandomValues zeroRng 12
          ≠ EncryptionService.getRandomValues rng' 12 →
        js "AAAAAAAAAAAAAAAAaGVsbG8AAAAAAAAAAAAAAAAAAAAA" ≠ E' :=
  envelope_format toyCrypto toyCrypto_tagAppended EncryptionService.new zeroRng (js "hello")
    tokenA (js "AAAAAAAAAAAAAAAAaGVsbG8AAAAAAAAAAAAAAAAAAAAA") (by decide)

/-! ## Claims about the login page -/

/-- What the login page keeps true: a pending token and every token sent in a check-room
request have passed the shape test. -/
theorem login_invariant (page : LoginPage) (events : List LoginEvent)
    (hp : ∀ t, page.pendingRoomToken = some t → t ≠ [] → isValidToken t = true)
    (hr : ∀ t, Request.checkRoom t ∈ page.requests → isValidToken t = true) :
    ∀ t, Request.checkRoom t ∈ (ChatApp.loginRun page events).requests →
      isValidToken t = true := by
  induction events generalizing page with
  | nil => exact hr
  | cons e events ih =>
    have hpend : (ChatApp.loginStep page e).pendingRoomToken = page.pendingRoomToken := by
      cases e <;> simp only [ChatApp.loginStep, ChatApp.createRoom, ChatApp.joinExistingRoom]
        <;> repeat' split
      all_goals rfl
    have hreq : ∀ t, Request.checkRoom t ∈ (ChatApp.loginStep page e).requests →
        isValidToken t = true := by
      intro t ht
      cases e with
      | submit usernameInput =>
        simp only [ChatApp.loginStep, ChatApp.createRoom, ChatApp.joinExistingRoom] at ht
        split at ht
        · exact hr t ht
        · split at ht
          · rename_i htr
            simp only [List.mem_append, List.mem_singleton, Request.checkRoom.injEq] at ht
            rcases ht with ht | ht
            · exact hr t ht
            · cases hpt : page.pendingRoomToken with
              | none => rw [hpt] at htr; simp [truthy] at htr
              | some p =>
                rw [hpt] at htr ht
                simp only [stringArg] at ht
                simp only [truthy, Bool.not_eq_true', List.isEmpty_eq_false] at htr
                rw [ht]; exact hp p hpt (by simpa using htr)
          · simp only [List.mem_append, List.mem_singleton, reduceCtorEq, or_false] at ht
            exact hr t ht
      | createRoomClick usernameInput =>
        simp only [ChatApp.loginStep, ChatApp.createRoom] at ht
        split at ht
        · exact hr t ht
        · simp only [List.mem_append, List.mem_singleton, reduceCtorEq, or_false] at ht
          exact hr t ht
      | createRoomResponse i roomToken =>
        simp only [ChatApp.loginStep] at ht
        split at ht <;> exact hr t ht
      | checkRoomResponse i roomExists =>
        simp only [ChatApp.loginStep] at ht
        split at ht
        · split at ht <;> exact hr t ht
        · exact hr t ht
      | fetchError i =>
        simp only [ChatApp.loginStep] at ht
        split at ht <;> exact hr t ht
    exact ih (ChatApp.loginStep page e) (by rw [hpend]; exact hp) hreq

/-- C5 (counterexample): the string "zz" fails the shape test, yet the client uses it.  As
stored session value it is sent in the check-room and join-room requests of `initChat`; as
create-room response it is stored as session token; as `primaryRoomToken` of check-room it
is sent in join-room; as `roomToken` of `room-joined` it is passed to `decrypt` and a key is
derived from it. -/
theorem unchecked_token_is_used :
    isValidToken (js "zz") = false ∧
    Request.checkRoom (js "zz") ∈
      (ChatApp.initChat (ChatApp.loaded { roomToken := some (js "zz"), username := some (js "bob") })
        { roomExists := true, primaryRoomToken := none }).requests ∧
    Emit.joinRoom (some (js "zz")) (some (js "bob")) ∈
      (ChatApp.initChat (ChatApp.loaded { roomToken := some (js "zz"), username := some (js "bob") })
        { roomExists := true, primaryRoomToken := none }).emitted ∧
    (ChatApp.loginRun
      (ChatApp.initLogin (LoginPage.loaded { roomToken := none, username := none }) none)
      [LoginEvent.submit (js "bob"), LoginEvent.createRoomResponse 0 (js "zz")]).storage.roomToken
        = some (js "zz") ∧
    Emit.joinRoom (some (js "zz")) (some (js "alice")) ∈
      (ChatApp.initChat
        (ChatApp.loaded { roomToken := some tokenA, username := some (js "alice") })
        { roomExists := true, primaryRoomToken := some (js "zz") }).emitted ∧
    CryptoCall.decrypt (js "AAAA") (some (js "zz")) ∈
      (ChatApp.run toyCrypto sampleChat
        [Action.roomJoined { roomToken := some (js "zz"), userCount := 1, messages := [] }
          (fun _ => []),
         Action.newMessage sampleMessage [], Action.decryptSettles 0]).cryptoLog ∧
    ((ChatApp.run toyCrypto sampleChat
        [Action.roomJoined { roomToken := some (js "zz"), userCount := 1, messages := [] }
          (fun _ => []),
         Action.newMessage sampleMessage [],
         Action.decryptSettles 0]).encryption.roomKeys.get (js "zz")).isSome = true := by
  decide

/-- C5 (amended): a token from the URL parameter that fails the shape test is rejected by
`initLogin` before any request: it is not kept as pending token, no request is made, and
whatever happens on the login page afterwards no check-room request carries it. -/
theorem invalid_url_token_rejected (storage : SessionStorage) (s : JSString)
    (hs : isValidToken s = false) (events : List LoginEvent) :
    (ChatApp.initLogin (LoginPage.loaded storage) (some s)).pendingRoomToken = none ∧
    (ChatApp.initLogin (LoginPage.loaded storage) (some s)).requests = [] ∧
    Request.checkRoom s ∉
      (ChatApp.loginRun (ChatApp.initLogin (LoginPage.loaded storage) (some s)) events).requests := by
  have h1 : (ChatApp.initLogin (LoginPage.loaded storage) (some s)).pendingRoomToken = none := by
    simp only [ChatApp.initLogin, stringArg, hs]
    split <;> rfl
  have h2 : (ChatApp.initLogin (LoginPage.loaded storage) (some s)).requests = [] := by
    simp only [ChatApp.initLogin, stringArg, hs]
    split <;> rfl
  refine ⟨h1, h2, ?_⟩
  intro hmem
  have := login_invariant _ events (by rw [h1]; intro t ht; cases ht)
    (by rw [h2]; intro t ht; cases ht) s hmem
  rw [hs] at this
  cases this

/-- C5 (witness): the URL parameter "zz". -/
theorem invalid_url_token_rejected_witness :
    (ChatApp.initLogin (LoginPage.loaded { roomToken := none, username := none })
      (some (js "zz"))).pendingRoomToken = none ∧
    (ChatApp.initLogin (LoginPage.loaded { roomToken := none, username := none })
      (some (js "zz"))).requests = [] ∧
    Request.checkRoom (js "zz") ∉
      (ChatApp.loginRun
        (ChatApp.initLogin (LoginPage.loaded { roomToken := none, username := none })
          (some (js "zz")))
        [LoginEvent.submit (js "bob"), LoginEvent.createRoomResponse 0 tokenA]).requests :=
  invalid_url_token_rejected { roomToken := none, username := none } (js "zz") (by decide)
    [LoginEvent.submit (js "bob"), LoginEvent.createRoomResponse 0 tokenA]

/-! ## Claims about the chat page -/

/-- C6 (the code at the failing input): two `new-message` events with the same message id
"m1", the second delivered while the first awaits `decrypt`, give two rendered messages
with that id; delivered one after the other they give one, and the second delivery changes
nothing. -/
theorem duplicate_when_delivered_during_decrypt (c : WebCrypto) :
    (ChatApp.run c sampleChat
      [Action.newMessage sampleMessage [], Action.newMessage sampleMessage [],
       Action.decryptSettles 0, Action.decryptSettles 0]).messages.map
        (fun els => els.map (fun e => e.messageId)) = some [js "m1", js "m1"] ∧
    (ChatApp.run c sampleChat
      [Action.newMessage sampleMessage [], Action.decryptSettles 0]).messages.map
        (fun els => els.map (fun e => e.messageId)) = some [js "m1"] ∧
    ChatApp.run c sampleChat
      [Action.newMessage sampleMessage [], Action.decryptSettles 0,
       Action.newMessage sampleMessage []]
      = ChatApp.run c sampleChat [Action.newMessage sampleMessage [], Action.decryptSettles 0] :=
  ⟨rfl, rfl, rfl⟩

theorem decrypt_none_of_undecryptable (c : WebCrypto) (self : EncryptionService)
    (data token : JSString)
    (h : undecryptable c (EncryptionService.deriveRoomKey c self token).1 data = true) :
    (EncryptionService.decrypt c self data token).1 = none := by
  unfold undecryptable at h
  unfold EncryptionService.decrypt
  cases hat : atob data with
  | none => rfl
  | some binary =>
    rw [hat] at h
    simp only [Option.isNone_iff_eq_none] at h ⊢
    rw [h]

theorem resolveMessageId_some (data : MessageData) (m random : JSString) (hne : m ≠ []) :
    ChatApp.resolveMessageId data (some m) random = m := by
  cases m with
  | nil => exact absurd rfl hne
  | cons u rest => rfl

theorem get?_concat_length (ps : List PendingDisplay) (p : PendingDisplay) :
    (ps ++ [p]).get? ps.length = some p := by
  simp

theorem eraseIdx_concat_length (ps : List PendingDisplay) (p : PendingDisplay) :
    (ps ++ [p]).eraseIdx ps.length = ps := by
  rw [List.eraseIdx_append_of_length_le (Nat.le_refl _)]
  simp

/-- C7: a `new-message` event whose `encryptedMessage` cannot be decrypted under the current
room token (`atob` throws, or AES-GCM rejects what follows the first 12 bytes) makes
`decrypt` return `null`; on a page with the elements `messages` and `messagesContainer`, for
an event with a message id not displayed before, the display appends exactly one element,
whose text is the failure placeholder, records the message id, and no exception escapes. -/
theorem undecryptable_message_shows_placeholder (c : WebCrypto) (app : ChatApp)
    (data : MessageData) (random m : JSString) (els : List MessageElement)
    (hm : app.messages = some els) (hcont : app.messagesContainer = true)
    (hid : data.messageId = some m) (hne : m ≠ []) (hfresh : m ∉ app.displayedMessageIds)
    (hfail : undecryptable c
      (EncryptionService.deriveRoomKey c app.encryption (stringArg app.roomToken)).1
      data.encryptedMessage = true) :
    (EncryptionService.decrypt c app.encryption data.encryptedMessage
      (stringArg app.roomToken)).1 = none ∧
    (ChatApp.run c app [Action.newMessage data random,
        Action.decryptSettles app.pendingDisplays.length]).messages
      = some (els ++ [{ sent := decide (some data.username = app.username), messageId := m,
                        timestamp := data.timestamp, username := data.username,
                        text := js "[Encrypted message - decryption failed]" }]) ∧
    (ChatApp.run c app [Action.newMessage data random,
        Action.decryptSettles app.pendingDisplays.length]).displayedMessageIds
      = app.displayedMessageIds ++ [m] ∧
    (ChatApp.run c app [Action.newMessage data random,
        Action.decryptSettles app.pendingDisplays.length]).uncaught = app.uncaught ∧
    (ChatApp.run c app [Action.newMessage data random,
        Action.decryptSettles app.pendingDisplays.length]).pendingDisplays
      = app.pendingDisplays := by
  have hdec := decrypt_none_of_undecryptable c app.encryption data.encryptedMessage
    (stringArg app.roomToken) hfail
  have hstart : ChatApp.onNewMessage app data random =
      { app with
        cryptoLog := app.cryptoLog ++ [CryptoCall.decrypt data.encryptedMessage app.roomToken],
        pendingDisplays := app.pendingDisplays ++
          [{ sent := decide (some data.username = app.username), messageId := m,
             timestamp := data.timestamp, username := data.username,
             encryptedMessage := data.encryptedMessage, roomToken := app.roomToken,
             keyCached := app.encryption.hasKey (stringArg app.roomToken) }] } := by
    simp only [ChatApp.onNewMessage, ChatApp.displayMessageUntilAwait, hm, hid,
      resolveMessageId_some data m random hne, if_neg hfresh, ChatApp.suspendDisplay,
      Option.toList]
  refine ⟨hdec, ?_⟩
  simp only [ChatApp.run, List.foldl, ChatApp.step, hstart, get?_concat_length,
    eraseIdx_concat_length, ChatApp.displayMessageAfterAwait, hdec, truthy, hm, hcont,
    if_neg hfresh, Option.map_some', ChatApp.failurePlaceholder]
  simp

/-- C7 (witness): an event whose `encryptedMessage` is "%%%", not base64. -/
theorem undecryptable_message_shows_placeholder_witness :
    (EncryptionService.decrypt toyCrypto sampleChat.encryption (js "%%%")
      (stringArg sampleChat.roomToken)).1 = none ∧
    (ChatApp.run toyCrypto sampleChat
      [Action.newMessage { username := js "bob", encryptedMessage := js "%%%",
                           timestamp := 5, messageId := some (js "m7") } [],
        Action.decryptSettles sampleChat.pendingDisplays.length]).messages
      = some ([] ++ [{ sent := decide (some (js "bob") = sampleChat.username),
                       messageId := js "m7", timestamp := 5, username := js "bob",
                       text := js "[Encrypted message - decryption failed]" }]) ∧
    (ChatApp.run toyCrypto sampleChat
      [Action.newMessage { username := js "bob", encryptedMessage := js "%%%",
                           timestamp := 5, messageId := some (js "m7") } [],
        Action.decryptSettles sampleChat.pendingDisplays.length]).displayedMessageIds
      = sampleChat.displayedMessageIds ++ [js "m7"] ∧
    (ChatApp.run toyCrypto sampleChat
      [Action.newMessage { username := js "bob", encryptedMessage := js "%%%",
                           timestamp := 5, messageId := some (js "m7") } [],
        Action.decryptSettles sampleChat.pendingDisplays.length]).uncaught
      = sampleChat.uncaught ∧
    (ChatApp.run toyCrypto sampleChat
      [Action.newMessage { username := js "bob", encryptedMessage := js "%%%",
                           timestamp := 5, messageId := some (js "m7") } [],
        Action.decryptSettles sampleChat.pendingDisplays.length]).pendingDisplays
      = sampleChat.pendingDisplays :=
  undecryptable_message_shows_placeholder toyCrypto sampleChat
    { username := js "bob", encryptedMessage := js "%%%", timestamp := 5,
      messageId := some (js "m7") } [] (js "m7") [] rfl rfl rfl (by decide) (by decide)
    (by decide)

theorem LogFrom.refl (P : JSString) (app : ChatApp) (h : app.roomToken = some P) :
    LogFrom P app app :=
  ⟨h, [], by simp, by simp⟩

theorem LogFrom.trans (P : JSString) (a b d : ChatApp) (h₁ : LogFrom P a b)
    (h₂ : LogFrom P b d) : LogFrom P a d := by
  obtain ⟨_, n₁, e₁, f₁⟩ := h₁
  obtain ⟨t₂, n₂, e₂, f₂⟩ := h₂
  refine ⟨t₂, n₁ ++ n₂, by rw [e₂, e₁, List.append_assoc], ?_⟩
  intro call hc
  rcases List.mem_append.1 hc with h | h
  · exact f₁ call h
  · exact f₂ call h

theorem logFrom_display (P : JSString) (app : ChatApp) (data : MessageData) (isSent : Bool)
    (messageId : Option JSString) (random : JSString) (h : app.roomToken = some P) :
    LogFrom P app
      (ChatApp.suspendDisplay (ChatApp.displayMessageUntilAwait app data isSent messageId random)) := by
  unfold ChatApp.displayMessageUntilAwait ChatApp.suspendDisplay
  split
  · exact ⟨h, [], by simp, by simp⟩
  · simp only []
    split
    · exact ⟨h, [], by simp, by simp⟩
    · refine ⟨h, [CryptoCall.decrypt data.encryptedMessage app.roomToken], rfl, ?_⟩
      intro call hc
      rw [List.mem_singleton] at hc
      rw [hc]; exact h

theorem logFrom_replay (P : JSString) (msgs : List MessageData) :
    ∀ (app : ChatApp) (random : Nat → JSString), app.roomToken = some P →
      LogFrom P app (ChatApp.replayHistory app msgs random) := by
  induction msgs with
  | nil => intro app random h; exact LogFrom.refl P app h
  | cons msg rest ih =>
    intro app random h
    have h₁ := logFrom_display P app msg false none (random 0) h
    exact LogFrom.trans P _ _ _ h₁ (ih _ _ h₁.1)

theorem logFrom_send (P : JSString) (app : ChatApp) (h : app.roomToken = some P) :
    LogFrom P app (ChatApp.suspendSend (ChatApp.sendMessageUntilAwait app)) := by
  unfold ChatApp.sendMessageUntilAwait ChatApp.suspendSend
  split
  · exact ⟨h, [], by simp, by simp⟩
  · simp only []
    split
    · exact ⟨h, [], by simp, by simp⟩
    · split
      · exact ⟨h, [], by simp, by simp⟩
      · refine ⟨h, [CryptoCall.encrypt _ app.roomToken], rfl, ?_⟩
        intro call hc
        rw [List.mem_singleton] at hc
        rw [hc]; exact h

theorem logFrom_displayAfter (c : WebCrypto) (P : JSString) (app : ChatApp)
    (p : PendingDisplay) (ps : List PendingDisplay) (h : app.roomToken = some P) :
    LogFrom P app (ChatApp.displayMessageAfterAwait c { app with pendingDisplays := ps } p) := by
  unfold ChatApp.displayMessageAfterAwait
  simp only []
  split
  · exact ⟨h, [], by simp, by simp⟩
  · exact ⟨h, [], by simp, by simp⟩

theorem logFrom_sendAfter (c : WebCrypto) (P : JSString) (app : ChatApp)
    (p : PendingSend) (ps : List PendingSend) (rng : Nat → Byte) (now : Nat)
    (h : app.roomToken = some P) :
    LogFrom P app (ChatApp.sendMessageAfterAwait c { app with pendingSends := ps } p rng now) := by
  unfold ChatApp.sendMessageAfterAwait
  simp only []
  split
  · exact ⟨h, [], by simp, by simp⟩
  · exact ⟨h, [], by simp, by simp⟩

theorem logFrom_roomJoined (P : JSString) (app : ChatApp) (data : RoomJoined)
    (random : Nat → JSString)
    (hk : truthy data.roomToken = true → data.roomToken = some P)
    (h : app.roomToken = some P ∨ truthy data.roomToken = true) :
    LogFrom P app (ChatApp.onRoomJoined app data random) := by
  unfold ChatApp.onRoomJoined
  simp only []
  by_cases ht : truthy data.roomToken = true
  · rw [if_pos ht]
    have := logFrom_replay P data.messages
      { app with roomToken := data.roomToken,
                 storage := { app.storage with roomToken := data.roomToken },
                 status := js "Connected", userCount := data.userCount } random (hk ht)
    exact this
  · rw [if_neg ht]
    have hP : app.roomToken = some P := h.resolve_right ht
    exact logFrom_replay P data.messages
      { app with status := js "Connected", userCount := data.userCount } random hP

theorem logFrom_step (c : WebCrypto) (P : JSString) (app : ChatApp) (a : Action)
    (h : app.roomToken = some P) (hk : KeepsToken P a) : LogFrom P app (ChatApp.step c app a) := by
  cases a with
  | connect => exact ⟨h, [], by simp [ChatApp.step], by simp⟩
  | disconnect =>
    simp only [ChatApp.step, ChatApp.onDisconnect]
    split
    · exact ⟨h, [], by simp, by simp⟩
    · exact ⟨h, [], by simp, by simp⟩
  | roomJoined data random => exact logFrom_roomJoined P app data random hk (Or.inl h)
  | newMessage data random => exact logFrom_display P app data _ _ random h
  | input value => exact ⟨h, [], by simp [ChatApp.step], by simp⟩
  | clickSend =>
    simp only [ChatApp.step]
    split
    · exact logFrom_send P app h
    · exact LogFrom.refl P app h
  | pressEnter shiftKey =>
    simp only [ChatApp.step]
    split
    · exact LogFrom.refl P app h
    · exact logFrom_send P app h
  | decryptSettles i =>
    simp only [ChatApp.step]
    split
    · exact LogFrom.refl P app h
    · exact logFrom_displayAfter c P app _ _ h
  | encryptSettles i rng now =>
    simp only [ChatApp.step]
    split
    · exact LogFrom.refl P app h
    · exact logFrom_sendAfter c P app _ _ rng now h

theorem logFrom_run (c : WebCrypto) (P : JSString) (actions : List Action) :
    ∀ app : ChatApp, app.roomToken = some P → (∀ a ∈ actions, KeepsToken P a) →
      LogFrom P app (ChatApp.run c app actions) := by
  induction actions with
  | nil => intro app h _; exact LogFrom.refl P app h
  | cons a rest ih =>
    intro app h hk
    have h₁ := logFrom_step c P app a h (hk a (List.mem_cons_self _ _))
    exact LogFrom.trans P _ _ _ h₁
      (ih _ h₁.1 (fun b hb => hk b (List.mem_cons_of_mem _ hb)))

theorem calls_of_logFrom (P S : JSString) (hSP : P ≠ S) (app app' : ChatApp)
    (h : LogFrom P app app') :
    ∀ call ∈ app'.cryptoLog.drop app.cryptoLog.length,
      call.roomToken = some P ∧ call.roomToken ≠ some S := by
  obtain ⟨_, added, e, f⟩ := h
  rw [e, List.drop_left]
  intro call hc
  refine ⟨f call hc, ?_⟩
  rw [f call hc]
  intro hh
  exact hSP (Option.some.inj hh)

/-- C8: a client holds the share token `S` and the server names the canonical token
`P ≠ S`, in the check-room response read by `initChat` or in a `room-joined` event.  The
controller sets `roomToken` to `P` and stores `P` as session token (and `initChat` joins
with `P`); every call of `encrypt` and `decrypt` made from then on, the replay of the
history of that `room-joined` event included, is made with `P` and not with `S`, as long as
no later `room-joined` event names another token. -/
theorem canonical_token_adopted (c : WebCrypto) (S P user : JSString) (hP : P ≠ [])
    (hS : S ≠ []) (hu : user ≠ []) (hSP : P ≠ S)
    (app₀ : ChatApp) (h₀ : app₀.storage = { roomToken := some S, username := some user })
    (app : ChatApp) (h : app.roomToken = some S)
    (userCount : Nat) (history : List MessageData) (random : Nat → JSString)
    (actions : List Action) (hk : ∀ a ∈ actions, KeepsToken P a) :
    ((ChatApp.initChat app₀ { roomExists := true, primaryRoomToken := some P }).roomToken
        = some P ∧
      (ChatApp.initChat app₀ { roomExists := true, primaryRoomToken := some P }).storage.roomToken
        = some P ∧
      (ChatApp.initChat app₀ { roomExists := true, primaryRoomToken := some P }).emitted
        = app₀.emitted ++ [Emit.joinRoom (some P) (some user)] ∧
      ∀ call ∈ (ChatApp.run c
          (ChatApp.initChat app₀ { roomExists := true, primaryRoomToken := some P })
          actions).cryptoLog.drop app₀.cryptoLog.length,
        call.roomToken = some P ∧ call.roomToken ≠ some S) ∧
    ((ChatApp.onRoomJoined app
        { roomToken := some P, userCount := userCount, messages := history } random).roomToken
        = some P ∧
      (ChatApp.onRoomJoined app
        { roomToken := some P, userCount := userCount, messages := history }
        random).storage.roomToken = some P ∧
      (∀ call ∈ (ChatApp.onRoomJoined app
          { roomToken := some P, userCount := userCount, messages := history }
          random).cryptoLog.drop app.cryptoLog.length,
        call.roomToken = some P ∧ call.roomToken ≠ some S) ∧
      ∀ call ∈ (ChatApp.run c
          (ChatApp.onRoomJoined app
            { roomToken := some P, userCount := userCount, messages := history } random)
          actions).cryptoLog.drop app.cryptoLog.length,
        call.roomToken = some P ∧ call.roomToken ≠ some S) := by
  have htP : truthy (some P) = true := by
    cases P with
    | nil => exact absurd rfl hP
    | cons u r => rfl
  have htS : truthy (some S) = true := by
    cases S with
    | nil => exact absurd rfl hS
    | cons u r => rfl
  have htu : truthy (some user) = true := by
    cases user with
    | nil => exact absurd rfl hu
    | cons u r => rfl
  constructor
  · have hinit : ChatApp.initChat app₀ { roomExists := true, primaryRoomToken := some P }
        = { app₀ with username := some user, roomToken := some P,
                      requests := app₀.requests ++ [Request.checkRoom S],
                      storage := { roomToken := some P, username := some user },
                      socket := true,
                      emitted := app₀.emitted ++ [Emit.joinRoom (some P) (some user)] } := by
      simp only [ChatApp.initChat, h₀, htS, htu, htP, ChatApp.joinRoom, stringArg,
        Bool.not_true, Bool.or_self, Bool.false_eq_true, if_false, if_true]
    rw [hinit]
    refine ⟨rfl, rfl, rfl, ?_⟩
    have hl := logFrom_run c P actions
      { app₀ with username := some user, roomToken := some P,
                  requests := app₀.requests ++ [Request.checkRoom S],
                  storage := { roomToken := some P, username := some user },
                  socket := true,
                  emitted := app₀.emitted ++ [Emit.joinRoom (some P) (some user)] } rfl hk
    exact calls_of_logFrom P S hSP _ _ hl
  · have hj := logFrom_roomJoined P app
      { roomToken := some P, userCount := userCount, messages := history } random
      (fun _ => rfl) (Or.inr htP)
    have hstore : (ChatApp.onRoomJoined app
        { roomToken := some P, userCount := userCount, messages := history }
        random).storage.roomToken = some P := by
      have hrep : ∀ (msgs : List MessageData) (a : ChatApp) (r : Nat → JSString),
          (ChatApp.replayHistory a msgs r).storage = a.storage := by
        intro msgs
        induction msgs with
        | nil => intro a r; rfl
        | cons msg rest ih =>
          intro a r
          rw [ChatApp.replayHistory, ih]
          unfold ChatApp.suspendDisplay ChatApp.displayMessageUntilAwait
          split
          · rfl
          · simp only []
            split <;> rfl
      simp only [ChatApp.onRoomJoined, htP, if_true, hrep]
    refine ⟨hj.1, hstore, calls_of_logFrom P S hSP _ _ hj, ?_⟩
    have hl := logFrom_run c P actions _ hj.1 hk
    exact calls_of_logFrom P S hSP _ _ (LogFrom.trans P _ _ _ hj hl)

/-- C8 (witness): alice holds the share token `tokenB`, the server names `tokenA`. -/
theorem canonical_token_adopted_witness :
    ((ChatApp.initChat
        (ChatApp.loaded { roomToken := some tokenB, username := some (js "alice") })
        { roomExists := true, primaryRoomToken := some tokenA }).roomToken = some tokenA ∧
      (ChatApp.initChat
        (ChatApp.loaded { roomToken := some tokenB, username := some (js "alice") })
        { roomExists := true, primaryRoomToken := some tokenA }).storage.roomToken
          = some tokenA ∧
      (ChatApp.initChat
        (ChatApp.loaded { roomToken := some tokenB, username := some (js "alice") })
        { roomExists := true, primaryRoomToken := some tokenA }).emitted
          = (ChatApp.loaded { roomToken := some tokenB, username := some (js "alice") }).emitted
            ++ [Emit.joinRoom (some tokenA) (some (js "alice"))] ∧
      ∀ call ∈ (ChatApp.run toyCrypto
          (ChatApp.initChat
            (ChatApp.loaded { roomToken := some tokenB, username := some (js "alice") })
            { roomExists := true, primaryRoomToken := some tokenA })
          [Action.newMessage sampleMessage [], Action.input (js "hi"),
           Action.pressEnter false]).cryptoLog.drop
          (ChatApp.loaded { roomToken := some tokenB,
                            username := some (js "alice") }).cryptoLog.length,
        call.roomToken = some tokenA ∧ call.roomToken ≠ some tokenB) ∧
    ((ChatApp.onRoomJoined sampleChatB
        { roomToken := some tokenA, userCount := 2, messages := [sampleMessage] }
        (fun _ => [])).roomToken = some tokenA ∧
      (ChatApp.onRoomJoined sampleChatB
        { roomToken := some tokenA, userCount := 2, messages := [sampleMessage] }
        (fun _ => [])).storage.roomToken = some tokenA ∧
      (∀ call ∈ (ChatApp.onRoomJoined sampleChatB
          { roomToken := some tokenA, userCount := 2, messages := [sampleMessage] }
          (fun _ => [])).cryptoLog.drop sampleChatB.cryptoLog.length,
        call.roomToken = some tokenA ∧ call.roomToken ≠ some tokenB) ∧
      ∀ call ∈ (ChatApp.run toyCrypto
          (ChatApp.onRoomJoined sampleChatB
            { roomToken := some tokenA, userCount := 2, messages := [sampleMessage] }
            (fun _ => []))
          [Action.newMessage sampleMessage [], Action.input (js "hi"),
           Action.pressEnter false]).cryptoLog.drop sampleChatB.cryptoLog.length,
        call.roomToken = some tokenA ∧ call.roomToken ≠ some tokenB) :=
  canonical_token_adopted toyCrypto tokenB tokenA (js "alice") (by decide) (by decide)
    (by decide) (by decide)
    (ChatApp.loaded { roomToken := some tokenB, username := some (js "alice") }) rfl
    sampleChatB (by decide) 2 [sampleMessage] (fun _ => [])
    [Action.newMessage sampleMessage [], Action.input (js "hi"), Action.pressEnter false]
    (by intro a ha; simp only [List.mem_cons, List.mem_singleton, List.not_mem_nil, or_false] at ha
        rcases ha with rfl | rfl | rfl <;> exact trivial)

theorem trim_eq_nil_iff (s : JSString) :
    trim s = [] ↔ ∀ u ∈ s, isWhiteSpace u = true := by
  unfold trim
  rw [List.reverse_eq_nil_iff, List.dropWhile_eq_nil_iff]
  constructor
  · intro h
    have hnil : s.dropWhile isWhiteSpace = [] := by
      cases hd : s.dropWhile isWhiteSpace with
      | nil => rfl
      | cons u rest =>
        have hne : s.dropWhile isWhiteSpace ≠ [] := by rw [hd]; simp
        have hhead := List.head_dropWhile_not isWhiteSpace s hne
        have := h ((s.dropWhile isWhiteSpace).head hne)
          (List.mem_reverse.2 (List.head_mem hne))
        rw [this] at hhead
        exact absurd hhead (by simp)
    exact List.dropWhile_eq_nil_iff.1 hnil
  · intro h
    rw [List.dropWhile_eq_nil_iff.2 h]
    simp

theorem base64Encode_length_eq (bs : Bytes) :
    (base64Encode bs).length = 4 * ((bs.length + 2) / 3) := by
  induction bs using base64Encode.induct with
  | case1 => rfl
  | case2 a => simp [base64Encode]
  | case3 a b => simp [base64Encode]
  | case4 a b c rest ih => simp only [base64Encode, List.length_cons, ih]; omega

theorem utf8EncodeScalar_length_pos (cp : Nat) : 1 ≤ (utf8EncodeScalar cp).length := by
  unfold utf8EncodeScalar
  split
  · simp
  · split
    · simp
    · split <;> simp

theorem utf8EncodeScalar_length_astral (cp : Nat) (h : 0x10000 ≤ cp) :
    (utf8EncodeScalar cp).length = 4 := by
  unfold utf8EncodeScalar
  rw [if_neg (by omega), if_neg (by omega), if_neg (by omega)]
  rfl

theorem encode_length_ge (s : JSString) : s.length ≤ (TextEncoder.encode s).length := by
  unfold TextEncoder.encode
  induction s using toScalarValues.induct with
  | case1 => simp [toScalarValues]
  | case2 u hs =>
    rw [toScalarValues, if_pos hs]
    simp only [List.flatMap_cons, List.flatMap_nil, List.append_nil, List.length_singleton]
    exact utf8EncodeScalar_length_pos _
  | case3 u hn =>
    rw [toScalarValues, if_neg hn]
    simp only [List.flatMap_cons, List.flatMap_nil, List.append_nil, List.length_singleton]
    exact utf8EncodeScalar_length_pos _
  | case4 u v rest hu hv ih =>
    rw [toScalarValues, if_pos hu, if_pos hv, List.flatMap_cons, List.length_append,
      utf8EncodeScalar_length_astral _ (by omega)]
    simp only [List.length_cons]; omega
  | case5 u v rest hu hv ih =>
    rw [toScalarValues, if_pos hu, if_neg hv, List.flatMap_cons, List.length_append]
    have := utf8EncodeScalar_length_pos 0xFFFD
    simp only [List.length_cons] at ih ⊢; omega
  | case6 u v rest hu hl ih =>
    rw [toScalarValues, if_neg hu, if_pos hl, List.flatMap_cons, List.length_append]
    have := utf8EncodeScalar_length_pos 0xFFFD
    simp only [List.length_cons] at ih ⊢; omega
  | case7 u v rest hu hl ih =>
    rw [toScalarValues, if_neg hu, if_neg hl, List.flatMap_cons, List.length_append]
    have := utf8EncodeScalar_length_pos u.val
    simp only [List.length_cons] at ih ⊢; omega

/-- An envelope is never the text it carries: it is longer. -/
theorem envelope_ne_message (c : WebCrypto) (ht : c.TagAppended) (self : EncryptionService)
    (rng : Nat → Byte) (P T E : JSString)
    (hE : (EncryptionService.encrypt c self rng P T).1 = some E) : E ≠ P := by
  obtain ⟨ct, hct, _, hEq⟩ := encrypt_some c self rng P T E hE
  have h1 := combined_length c ht _ rng _ ct hct
  have h2 := encode_length_ge P
  intro heq
  have hl : E.length = P.length := by rw [heq]
  rw [hEq, base64Encode_length_eq, h1] at hl
  omega

/-- An envelope is not the empty string. -/
theorem envelope_ne_nil (c : WebCrypto) (self : EncryptionService) (rng : Nat → Byte)
    (P T E : JSString) (hE : (EncryptionService.encrypt c self rng P T).1 = some E) :
    E ≠ [] := by
  obtain ⟨ct, _, _, hEq⟩ := encrypt_some c self rng P T E hE
  have h3 := EncryptionService.getRandomValues_length rng EncryptionService.ivLength
  intro heq
  have hl : E.length = 0 := by rw [heq]; rfl
  rw [hEq, base64Encode_length_eq, List.length_append, h3] at hl
  simp only [EncryptionService.ivLength] at hl
  omega

theorem sendMessageAfterAwait_of_envelope (c : WebCrypto) (app : ChatApp) (p : PendingSend)
    (rng : Nat → Byte) (now : Nat) (E : JSString)
    (hE : (EncryptionService.encrypt c app.encryption rng p.message
      (stringArg p.roomToken)).1 = some E) :
    (ChatApp.sendMessageAfterAwait c app p rng now).emitted = app.emitted ++
        [Emit.sendMessage { roomToken := app.roomToken, encryptedMessage := E,
                            timestamp := now, username := app.username }] ∧
    (ChatApp.sendMessageAfterAwait c app p rng now).messageInput
      = app.messageInput.map (fun _ => []) ∧
    (ChatApp.sendMessageAfterAwait c app p rng now).sendBtn
      = app.sendBtn.map (fun _ => false) := by
  have hne := envelope_ne_nil c app.encryption rng p.message (stringArg p.roomToken) E hE
  have ht : truthy (some E) = true := by
    cases E with
    | nil => exact absurd rfl hne
    | cons u r => rfl
  unfold ChatApp.sendMessageAfterAwait
  simp only [hE, ht, Bool.not_true, Bool.false_eq_true, if_false]
  refine ⟨?_, ?_, ?_⟩ <;> first | rfl | trivial

theorem sendMessageAfterAwait_of_null (c : WebCrypto) (app : ChatApp) (p : PendingSend)
    (rng : Nat → Byte) (now : Nat)
    (hE : (EncryptionService.encrypt c app.encryption rng p.message
      (stringArg p.roomToken)).1 = none) :
    (ChatApp.sendMessageAfterAwait c app p rng now).emitted = app.emitted ∧
    (ChatApp.sendMessageAfterAwait c app p rng now).sendBtn
      = app.sendBtn.map (fun _ => false) := by
  unfold ChatApp.sendMessageAfterAwait
  simp only [hE, truthy, Bool.not_false, if_true, and_self]

theorem pendingSend_get?_concat (ps : List PendingSend) (p : PendingSend) :
    (ps ++ [p]).get? ps.length = some p := by
  simp

theorem pendingSend_eraseIdx_concat (ps : List PendingSend) (p : PendingSend) :
    (ps ++ [p]).eraseIdx ps.length = ps := by
  rw [List.eraseIdx_append_of_length_le (Nat.le_refl _)]
  simp

/-- C10: when the message field is empty or holds only white space, `sendMessage` returns
at once: the state is unchanged, so no `send-message` event is emitted, no encryption or
key derivation takes place, and input field, send button and key cache stay as they were.
For every other input, on a connected page, `sendMessage` calls `encrypt` with the trimmed
text, and when `encrypt` returns an envelope it emits one `send-message` event whose
`encryptedMessage` is that envelope and clears the field; with an AES-GCM that appends its
tag the envelope differs from the trimmed text.  When `encrypt` returns `null`, or the page
is not connected, nothing is emitted. -/
theorem blank_input_not_sent (c : WebCrypto) (app : ChatApp) (value : JSString)
    (hv : app.messageInput = some value) (rng : Nat → Byte) (now : Nat) :
    ((∀ u ∈ value, isWhiteSpace u = true) →
      ChatApp.sendMessageUntilAwait app = (app, none) ∧
      ChatApp.sendMessage c app rng now = app ∧
      ChatApp.step c app (Action.pressEnter false) = app ∧
      ChatApp.step c app Action.clickSend = app) ∧
    (¬ (∀ u ∈ value, isWhiteSpace u = true) →
      (app.socket = true → truthy app.roomToken = true →
        (ChatApp.sendMessageUntilAwait app).2
          = some { message := trim value, roomToken := app.roomToken,
                   keyCached := app.encryption.hasKey (stringArg app.roomToken) } ∧
        (ChatApp.sendMessageUntilAwait app).1.cryptoLog
          = app.cryptoLog ++ [CryptoCall.encrypt (trim value) app.roomToken] ∧
        (∀ E, (EncryptionService.encrypt c app.encryption rng (trim value)
            (stringArg app.roomToken)).1 = some E →
          (ChatApp.sendMessage c app rng now).emitted = app.emitted ++
            [Emit.sendMessage { roomToken := app.roomToken, encryptedMessage := E,
                                timestamp := now, username := app.username }] ∧
          (ChatApp.run c app [Action.pressEnter false,
              Action.encryptSettles app.pendingSends.length rng now]).emitted = app.emitted ++
            [Emit.sendMessage { roomToken := app.roomToken, encryptedMessage := E,
                                timestamp := now, username := app.username }] ∧
          (ChatApp.sendMessage c app rng now).messageInput = some [] ∧
          (c.TagAppended → E ≠ trim value)) ∧
        ((EncryptionService.encrypt c app.encryption rng (trim value)
            (stringArg app.roomToken)).1 = none →
          (ChatApp.sendMessage c app rng now).emitted = app.emitted)) ∧
      ((app.socket = false ∨ truthy app.roomToken = false) →
        (ChatApp.sendMessage c app rng now).emitted = app.emitted ∧
        (ChatApp.sendMessage c app rng now).cryptoLog = app.cryptoLog)) := by
  constructor
  · intro hblank
    have htrim : trim value = [] := (trim_eq_nil_iff value).2 hblank
    have h1 : ChatApp.sendMessageUntilAwait app = (app, none) := by
      simp [ChatApp.sendMessageUntilAwait, hv, htrim]
    refine ⟨h1, ?_, ?_, ?_⟩
    · simp [ChatApp.sendMessage, h1]
    · simp [ChatApp.step, ChatApp.suspendSend, h1]
    · simp [ChatApp.step, ChatApp.suspendSend, h1]
  · intro hnb
    have htrim : (trim value).isEmpty = false := by
      cases ht : trim value with
      | nil => exact absurd ((trim_eq_nil_iff value).1 ht) hnb
      | cons u r => rfl
    constructor
    · intro hsock htok
      have hstart : ChatApp.sendMessageUntilAwait app =
          ({ app with sendBtn := app.sendBtn.map (fun _ => true),
                      cryptoLog := app.cryptoLog ++
                        [CryptoCall.encrypt (trim value) app.roomToken] },
           some { message := trim value, roomToken := app.roomToken,
                   keyCached := app.encryption.hasKey (stringArg app.roomToken) }) := by
        simp only [ChatApp.sendMessageUntilAwait, hv, htrim, hsock, htok, Bool.not_true,
          Bool.or_self, Bool.false_eq_true, if_false]
      refine ⟨by rw [hstart], by rw [hstart], ?_, ?_⟩
      · intro E hE
        have hafter := sendMessageAfterAwait_of_envelope c
          { app with sendBtn := app.sendBtn.map (fun _ => true),
                     cryptoLog := app.cryptoLog ++
                       [CryptoCall.encrypt (trim value) app.roomToken] }
          { message := trim value, roomToken := app.roomToken,
                   keyCached := app.encryption.hasKey (stringArg app.roomToken) } rng now E hE
        have hafter' := sendMessageAfterAwait_of_envelope c
          { app with sendBtn := app.sendBtn.map (fun _ => true),
                     cryptoLog := app.cryptoLog ++
                       [CryptoCall.encrypt (trim value) app.roomToken],
                     pendingSends := app.pendingSends }
          { message := trim value, roomToken := app.roomToken,
                   keyCached := app.encryption.hasKey (stringArg app.roomToken) } rng now E hE
        refine ⟨?_, ?_, ?_, fun ht => envelope_ne_message c ht _ rng _ _ E hE⟩
        · rw [ChatApp.sendMessage, hstart]
          exact hafter.1
        · simp only [ChatApp.run, List.foldl, ChatApp.step, Bool.false_eq_true, if_false,
            hstart, ChatApp.suspendSend, Option.toList, pendingSend_get?_concat,
            pendingSend_eraseIdx_concat]
          exact hafter'.1
        · rw [ChatApp.sendMessage, hstart]
          refine hafter.2.1.trans ?_
          show app.messageInput.map (fun _ => ([] : JSString)) = some []
          rw [hv]; rfl
      · intro hE
        rw [ChatApp.sendMessage, hstart]
        exact (sendMessageAfterAwait_of_null c
          { app with sendBtn := app.sendBtn.map (fun _ => true),
                     cryptoLog := app.cryptoLog ++
                       [CryptoCall.encrypt (trim value) app.roomToken] }
          { message := trim value, roomToken := app.roomToken,
                   keyCached := app.encryption.hasKey (stringArg app.roomToken) } rng now hE).1
    · intro hdis
      have hconn : (!app.socket || !truthy app.roomToken) = true := by
        rcases hdis with h | h <;> simp [h]
      have hstart : ChatApp.sendMessageUntilAwait app =
          ({ app with alerts := app.alerts ++
              [js "Not connected to chat. Please refresh the page."] }, none) := by
        simp only [ChatApp.sendMessageUntilAwait, hv, htrim, hconn, Bool.false_eq_true,
          if_false, if_true]
      rw [ChatApp.sendMessage, hstart]
      exact ⟨rfl, rfl⟩

/-- C10 (witness): the input of three blanks is not sent; the input " hi " on the connected
page of alice is sent as the envelope of "hi". -/
theorem blank_input_not_sent_witness :
    (ChatApp.sendMessageUntilAwait (sampleTyping (js "   ")) = (sampleTyping (js "   "), none) ∧
      ChatApp.sendMessage toyCrypto (sampleTyping (js "   ")) zeroRng 7
        = sampleTyping (js "   ") ∧
      ChatApp.step toyCrypto (sampleTyping (js "   ")) (Action.pressEnter false)
        = sampleTyping (js "   ") ∧
      ChatApp.step toyCrypto (sampleTyping (js "   ")) Action.clickSend
        = sampleTyping (js "   ")) ∧
    ((ChatApp.sendMessage toyCrypto (sampleTyping (js " hi ")) zeroRng 7).emitted
        = (sampleTyping (js " hi ")).emitted ++
          [Emit.sendMessage { roomToken := (sampleTyping (js " hi ")).roomToken,
                              encryptedMessage := js "AAAAAAAAAAAAAAAAaGkAAAAAAAAAAAAAAAAAAAAA",
                              timestamp := 7,
                              username := (sampleTyping (js " hi ")).username }] ∧
      (ChatApp.run toyCrypto (sampleTyping (js " hi ")) [Action.pressEnter false,
          Action.encryptSettles (sampleTyping (js " hi ")).pendingSends.length zeroRng 7]).emitted
        = (sampleTyping (js " hi ")).emitted ++
          [Emit.sendMessage { roomToken := (sampleTyping (js " hi ")).roomToken,
                              encryptedMessage := js "AAAAAAAAAAAAAAAAaGkAAAAAAAAAAAAAAAAAAAAA",
                              timestamp := 7,
                              username := (sampleTyping (js " hi ")).username }] ∧
      (ChatApp.sendMessage toyCrypto (sampleTyping (js " hi ")) zeroRng 7).messageInput
        = some [] ∧
      (toyCrypto.TagAppended → js "AAAAAAAAAAAAAAAAaGkAAAAAAAAAAAAAAAAAAAAA" ≠ trim (js " hi "))) :=
  ⟨(blank_input_not_sent toyCrypto (sampleTyping (js "   ")) (js "   ") rfl zeroRng 7).1
      (List.all_eq_true.1 (by decide)),
   (((blank_input_not_sent toyCrypto (sampleTyping (js " hi ")) (js " hi ") rfl zeroRng 7).2
      (fun h => absurd (List.all_eq_true.2 h) (by decide))).1 rfl rfl).2.2.1
      (js "AAAAAAAAAAAAAAAAaGkAAAAAAAAAAAAAAAAAAAAA") (by decide)⟩

/-- C11 (the code at the failing input): with "hi" in the message field, the key Enter
pressed twice while the first `sendMessage` awaits `encrypt` starts a second encryption of
the same text, and two `send-message` events are emitted; a second click on the send
button, which is disabled meanwhile, starts nothing. -/
theorem enter_twice_sends_twice (c : WebCrypto) :
    (ChatApp.run c (sampleTyping (js "hi"))
      [Action.pressEnter false, Action.pressEnter false]).cryptoLog
        = [CryptoCall.encrypt (js "hi") (some tokenA),
           CryptoCall.encrypt (js "hi") (some tokenA)] ∧
    (ChatApp.run c (sampleTyping (js "hi")) [Action.pressEnter false]).sendBtn = some true ∧
    (ChatApp.run toyCrypto (sampleTyping (js "hi"))
      [Action.pressEnter false, Action.pressEnter false,
       Action.encryptSettles 0 zeroRng 1, Action.encryptSettles 0 zeroRng 2]).emitted
        = [Emit.joinRoom (some tokenA) (some (js "alice")),
           Emit.sendMessage { roomToken := some tokenA,
                              encryptedMessage := js "AAAAAAAAAAAAAAAAaGkAAAAAAAAAAAAAAAAAAAAA",
                              timestamp := 1, username := some (js "alice") },
           Emit.sendMessage { roomToken := some tokenA,
                              encryptedMessage := js "AAAAAAAAAAAAAAAAaGkAAAAAAAAAAAAAAAAAAAAA",
                              timestamp := 2, username := some (js "alice") }] ∧
    ChatApp.run c (sampleTyping (js "hi")) [Action.clickSend, Action.clickSend]
      = ChatApp.run c (sampleTyping (js "hi")) [Action.clickSend] ∧
    (ChatApp.run c (sampleTyping (js "hi")) [Action.clickSend]).cryptoLog
      = [CryptoCall.encrypt (js "hi") (some tokenA)] :=
  ⟨rfl, rfl, by decide, rfl, rfl⟩

theorem KeyMap.get_delete_of_ne (m : KeyMap) (token t : JSString) (h : t ≠ token) :
    KeyMap.get (KeyMap.delete m token) t = KeyMap.get m t := by
  induction m with
  | nil => rfl
  | cons e m ih =>
    obtain ⟨k, v⟩ := e
    by_cases hk : k = token
    · have hd : KeyMap.delete ((k, v) :: m) token = KeyMap.delete m token := by
        simp [KeyMap.delete, hk]
      have hkt : ¬ k = t := by rw [hk]; exact fun e => h e.symm
      rw [hd, ih, KeyMap.get, if_neg hkt]
    · have hd : KeyMap.delete ((k, v) :: m) token = (k, v) :: KeyMap.delete m token := by
        simp [KeyMap.delete, hk]
      rw [hd, KeyMap.get, KeyMap.get, ih]

/-- C12 (counterexample): alice has joined with the share token `tokenB` and sends "hi"
before the server names the canonical token, so a key for `tokenB` is derived and cached;
then `room-joined` names `tokenA`, a message is decrypted under `tokenA`, and the
connection drops.  After the `disconnect` handler the current token is `tokenA`, the key
map has no entry for `tokenA`, and the key derived for `tokenB` is still cached. -/
theorem disconnect_leaves_other_key :
    (ChatApp.run toyCrypto sampleChatB
      [Action.input (js "hi"), Action.pressEnter false, Action.encryptSettles 0 zeroRng 1,
       Action.roomJoined { roomToken := some tokenA, userCount := 2, messages := [] }
         (fun _ => []),
       Action.newMessage sampleMessage [], Action.decryptSettles 0,
       Action.disconnect]).roomToken = some tokenA ∧
    (ChatApp.run toyCrypto sampleChatB
      [Action.input (js "hi"), Action.pressEnter false, Action.encryptSettles 0 zeroRng 1,
       Action.roomJoined { roomToken := some tokenA, userCount := 2, messages := [] }
         (fun _ => []),
       Action.newMessage sampleMessage [],
       Action.decryptSettles 0]).encryption.roomKeys.get tokenA
        = some (EncryptionService.keyOf toyCrypto tokenA) ∧
    (ChatApp.run toyCrypto sampleChatB
      [Action.input (js "hi"), Action.pressEnter false, Action.encryptSettles 0 zeroRng 1,
       Action.roomJoined { roomToken := some tokenA, userCount := 2, messages := [] }
         (fun _ => []),
       Action.newMessage sampleMessage [], Action.decryptSettles 0,
       Action.disconnect]).encryption.roomKeys.get tokenA = none ∧
    (ChatApp.run toyCrypto sampleChatB
      [Action.input (js "hi"), Action.pressEnter false, Action.encryptSettles 0 zeroRng 1,
       Action.roomJoined { roomToken := some tokenA, userCount := 2, messages := [] }
         (fun _ => []),
       Action.newMessage sampleMessage [], Action.decryptSettles 0,
       Action.disconnect]).encryption.roomKeys.get tokenB
        = some (EncryptionService.keyOf toyCrypto tokenB) := by
  decide

/-- C12 (amended): in every state with a non-empty `roomToken`, after the `disconnect`
handler the key map has no entry for the current `roomToken`, while `username`,
`roomToken`, the stored session values and `displayedMessageIds` are unchanged; the entries
of the key map for every other token are unchanged too. -/
theorem disconnect_evicts_current_key (c : WebCrypto) (app : ChatApp) (T : JSString)
    (hT : app.roomToken = some T) (hne : T ≠ []) :
    (ChatApp.step c app Action.disconnect).encryption.roomKeys.get T = none ∧
    (ChatApp.step c app Action.disconnect).username = app.username ∧
    (ChatApp.step c app Action.disconnect).roomToken = app.roomToken ∧
    (ChatApp.step c app Action.disconnect).storage = app.storage ∧
    (ChatApp.step c app Action.disconnect).displayedMessageIds = app.displayedMessageIds ∧
    ∀ t, t ≠ T →
      (ChatApp.step c app Action.disconnect).encryption.roomKeys.get t
        = app.encryption.roomKeys.get t := by
  have ht : truthy (some T) = true := by
    cases T with
    | nil => exact absurd rfl hne
    | cons u r => rfl
  have hstep : ChatApp.step c app Action.disconnect
      = { app with status := js "Disconnected",
                   encryption := app.encryption.clearRoomKey T } := by
    simp only [ChatApp.step, ChatApp.onDisconnect, ht, if_true, hT, stringArg]
  rw [hstep]
  exact ⟨KeyMap.get_delete_self _ _, rfl, rfl, rfl, rfl,
    fun t hne' => KeyMap.get_delete_of_ne _ _ _ hne'⟩

/-- C12 (witness): alice in room `tokenA`, after one message has been decrypted. -/
theorem disconnect_evicts_current_key_witness :
    (ChatApp.step toyCrypto
      (ChatApp.run toyCrypto sampleChat [Action.newMessage sampleMessage [],
        Action.decryptSettles 0]) Action.disconnect).encryption.roomKeys.get tokenA = none ∧
    (ChatApp.step toyCrypto
      (ChatApp.run toyCrypto sampleChat [Action.newMessage sampleMessage [],
        Action.decryptSettles 0]) Action.disconnect).username
      = (ChatApp.run toyCrypto sampleChat [Action.newMessage sampleMessage [],
        Action.decryptSettles 0]).username ∧
    (ChatApp.step toyCrypto
      (ChatApp.run toyCrypto sampleChat [Action.newMessage sampleMessage [],
        Action.decryptSettles 0]) Action.disconnect).roomToken
      = (ChatApp.run toyCrypto sampleChat [Action.newMessage sampleMessage [],
        Action.decryptSettles 0]).roomToken ∧
    (ChatApp.step toyCrypto
      (ChatApp.run toyCrypto sampleChat [Action.newMessage sampleMessage [],
        Action.decryptSettles 0]) Action.disconnect).storage
      = (ChatApp.run toyCrypto sampleChat [Action.newMessage sampleMessage [],
        Action.decryptSettles 0]).storage ∧
    (ChatApp.step toyCrypto
      (ChatApp.run toyCrypto sampleChat [Action.newMessage sampleMessage [],
        Action.decryptSettles 0]) Action.disconnect).displayedMessageIds
      = (ChatApp.run toyCrypto sampleChat [Action.newMessage sampleMessage [],
        Action.decryptSettles 0]).displayedMessageIds ∧
    ∀ t, t ≠ tokenA →
      (ChatApp.step toyCrypto
        (ChatApp.run toyCrypto sampleChat [Action.newMessage sampleMessage [],
          Action.decryptSettles 0]) Action.disconnect).encryption.roomKeys.get t
        = (ChatApp.run toyCrypto sampleChat [Action.newMessage sampleMessage [],
          Action.decryptSettles 0]).encryption.roomKeys.get t :=
  disconnect_evicts_current_key toyCrypto
    (ChatApp.run toyCrypto sampleChat [Action.newMessage sampleMessage [],
      Action.decryptSettles 0]) tokenA (by decide) (by decide)

/-- C13: `displayMessage` renders the failure placeholder when `decrypt` returns `null` and
when it returns the empty string, and renders the decrypted text when that is not empty.
An envelope that `encrypt` made of the empty string is decrypted to the empty string, and
the message is shown with the failure placeholder. -/
theorem placeholder_when_falsy (c : WebCrypto) (hc : c.Correct) (app : ChatApp)
    (hcoh : EncryptionService.Coherent c app.encryption = true) (T : JSString)
    (hT : app.roomToken = some T) (rng : Nat → Byte) (E : JSString)
    (hE : (EncryptionService.encrypt c app.encryption rng [] T).1 = some E)
    (els : List MessageElement) (hm : app.messages = some els)
    (data : MessageData) (hdata : data.encryptedMessage = E) (isSent : Bool)
    (random m : JSString) (hid : data.messageId = some m) (hne : m ≠ [])
    (hfresh : m ∉ app.displayedMessageIds) :
    (EncryptionService.decrypt c app.encryption E T).1 = some [] ∧
    (ChatApp.displayMessage c app data isSent data.messageId random).messages
      = some (els ++ [{ sent := isSent, messageId := m, timestamp := data.timestamp,
                        username := data.username,
                        text := js "[Encrypted message - decryption failed]" }]) ∧
    ∀ (app₂ : ChatApp) (p : PendingDisplay) (els₂ : List MessageElement),
      app₂.messages = some els₂ →
      (ChatApp.displayMessageAfterAwait c app₂ p).messages
        = some (els₂ ++ [{ sent := p.sent, messageId := p.messageId, timestamp := p.timestamp,
                           username := p.username,
                           text :=
                             match (EncryptionService.decrypt c app₂.encryption
                               p.encryptedMessage (stringArg p.roomToken)).1 with
                             | none => js "[Encrypted message - decryption failed]"
                             | some [] => js "[Encrypted message - decryption failed]"
                             | some (u :: rest) => u :: rest }]) := by
  have hdec : (EncryptionService.decrypt c app.encryption E T).1 = some [] := by
    have _ := hcoh
    obtain ⟨ct, hct, _, hEq⟩ := encrypt_some c app.encryption rng [] T E hE
    obtain ⟨ct', he, hd⟩ := hc (EncryptionService.deriveRoomKey c app.encryption T).1
      (EncryptionService.getRandomValues rng EncryptionService.ivLength)
      EncryptionService.tagLength (TextEncoder.encode [])
    rw [hct] at he
    rw [← Option.some.inj he] at hd
    rw [hEq, EncryptionService.decrypt_envelope c app.encryption _ ct T
      (EncryptionService.getRandomValues_length rng EncryptionService.ivLength), hd]
    rfl
  have hgen : ∀ (app₂ : ChatApp) (p : PendingDisplay) (els₂ : List MessageElement),
      app₂.messages = some els₂ →
      (ChatApp.displayMessageAfterAwait c app₂ p).messages
        = some (els₂ ++ [{ sent := p.sent, messageId := p.messageId, timestamp := p.timestamp,
                           username := p.username,
                           text :=
                             match (EncryptionService.decrypt c app₂.encryption
                               p.encryptedMessage (stringArg p.roomToken)).1 with
                             | none => js "[Encrypted message - decryption failed]"
                             | some [] => js "[Encrypted message - decryption failed]"
                             | some (u :: rest) => u :: rest }]) := by
    intro app₂ p els₂ hm₂
    have hmsg : (ChatApp.displayMessageAfterAwait c app₂ p).messages
        = some (els₂ ++ [{ sent := p.sent, messageId := p.messageId, timestamp := p.timestamp,
                           username := p.username,
                           text :=
                             if truthy (EncryptionService.decrypt c app₂.encryption
                               p.encryptedMessage (stringArg p.roomToken)).1 then
                               stringArg (EncryptionService.decrypt c app₂.encryption
                                 p.encryptedMessage (stringArg p.roomToken)).1
                             else ChatApp.failurePlaceholder }]) := by
      unfold ChatApp.displayMessageAfterAwait
      simp only []
      split <;> simp only [hm₂, Option.map_some']
    rw [hmsg]
    cases hr : (EncryptionService.decrypt c app₂.encryption p.encryptedMessage
        (stringArg p.roomToken)).1 with
    | none => rfl
    | some t =>
      cases t with
      | nil => rfl
      | cons u rest => rfl
  refine ⟨hdec, ?_, hgen⟩
  have hstart : ChatApp.displayMessageUntilAwait app data isSent data.messageId random
      = ({ app with cryptoLog := app.cryptoLog ++
              [CryptoCall.decrypt data.encryptedMessage app.roomToken] },
         some { sent := isSent, messageId := m, timestamp := data.timestamp,
                username := data.username, encryptedMessage := data.encryptedMessage,
                roomToken := app.roomToken,
                keyCached := app.encryption.hasKey (stringArg app.roomToken) }) := by
    simp only [ChatApp.displayMessageUntilAwait, hm, hid,
      resolveMessageId_some data m random hne, if_neg hfresh]
  have h2 := hgen
    { app with cryptoLog := app.cryptoLog ++
        [CryptoCall.decrypt data.encryptedMessage app.roomToken] }
    { sent := isSent, messageId := m, timestamp := data.timestamp,
      username := data.username, encryptedMessage := data.encryptedMessage,
      roomToken := app.roomToken,
      keyCached := app.encryption.hasKey (stringArg app.roomToken) } els hm
  simp only [hdata, hT, stringArg, hdec] at h2
  rw [ChatApp.displayMessage, hstart]
  simp only [hdata, hT]
  exact h2

/-- C13 (witness): bob's message is the envelope of the empty string under `tokenA`. -/
theorem placeholder_when_falsy_witness :
    (EncryptionService.decrypt toyCrypto sampleChat.encryption
      (js "AAAAAAAAAAAAAAAAAAAAAAAAAAAAAAAAAAAAAA==") tokenA).1 = some [] ∧
    (ChatApp.displayMessage toyCrypto sampleChat
      { username := js "bob", encryptedMessage := js "AAAAAAAAAAAAAAAAAAAAAAAAAAAAAAAAAAAAAA==", timestamp := 9,
        messageId := some (js "m9") } false
      (some (js "m9")) []).messages
      = some ([] ++ [{ sent := false, messageId := js "m9", timestamp := 9,
                       username := js "bob",
                       text := js "[Encrypted message - decryption failed]" }]) ∧
    ∀ (app₂ : ChatApp) (p : PendingDisplay) (els₂ : List MessageElement),
      app₂.messages = some els₂ →
      (ChatApp.displayMessageAfterAwait toyCrypto app₂ p).messages
        = some (els₂ ++ [{ sent := p.sent, messageId := p.messageId, timestamp := p.timestamp,
                           username := p.username,
                           text :=
                             match (EncryptionService.decrypt toyCrypto app₂.encryption
                               p.encryptedMessage (stringArg p.roomToken)).1 with
                             | none => js "[Encrypted message - decryption failed]"
                             | some [] => js "[Encrypted message - decryption failed]"
                             | some (u :: rest) => u :: rest }]) :=
  placeholder_when_falsy toyCrypto toyCrypto_correct sampleChat (by decide) tokenA
    (by decide) zeroRng (js "AAAAAAAAAAAAAAAAAAAAAAAAAAAAAAAAAAAAAA==") (by decide) [] rfl
    { username := js "bob", encryptedMessage := js "AAAAAAAAAAAAAAAAAAAAAAAAAAAAAAAAAAAAAA==", timestamp := 9,
      messageId := some (js "m9") } rfl false [] (js "m9") rfl (by decide) (by decide)

end WishperNet
